import Mathlib

/-!
# Audit Manager evidence listing: fan-out over evidence folders

Shallow embedding of `aws/table_aws_auditmanager_evidence.go`:

* `getRowDataForEvidence` (lines 234-257) is a pure function of the folder and
  of the answers the outside world gives to this invocation;
* `getRowDataForEvidenceAsync` (lines 223-232) and `listAuditManagerEvidences`
  (lines 167-221) are goroutines; they are embedded as a step function on an
  explicit state (`step`), one atomic step per statement that touches shared
  state, driven by an arbitrary schedule (`exec`).

Go pointers are `Option`, Go `error` values are `Option Error` (`none` is the
nil error), Go slices keep the nil / non-nil distinction (`Slice`), buffered
channels are FIFO lists with a capacity.
-/

namespace Aws

/-- Go non-nil `error` value, identified by its message. -/
structure Error where
  msg : String
deriving DecidableEq

/-- Go slice: `nil` is the nil slice, `mk l` a non-nil slice holding `l`. -/
inductive Slice (α : Type) where
  | nil : Slice α
  | mk (elems : List α) : Slice α
deriving DecidableEq

namespace Slice

/-- Elements of a slice in order, as visited by `range`. -/
def toList {α : Type} : Slice α → List α
  | nil => []
  | mk l => l

/-- Go `append(s, x)`: the result is never the nil slice. -/
def append {α : Type} (s : Slice α) (x : α) : Slice α :=
  mk (s.toList ++ [x])

end Slice

namespace auditmanager

/-- SDK type `auditmanager.Evidence` (the fields the table reads by name). -/
structure Evidence where
  Id : Option String
  EvidenceFolderId : Option String
deriving DecidableEq

/-- SDK type `auditmanager.AssessmentEvidenceFolder`. -/
structure AssessmentEvidenceFolder where
  AssessmentId : Option String
  ControlSetId : Option String
  Id : Option String
deriving DecidableEq

/-- SDK type `auditmanager.GetEvidenceByEvidenceFolderInput`. -/
structure GetEvidenceByEvidenceFolderInput where
  AssessmentId : Option String
  ControlSetId : Option String
  EvidenceFolderId : Option String
deriving DecidableEq

/-- SDK type `auditmanager.GetEvidenceByEvidenceFolderOutput`. -/
structure GetEvidenceByEvidenceFolderOutput where
  Evidence : List (Option Evidence)
deriving DecidableEq

/-- SDK type `auditmanager.GetEvidenceFoldersByAssessmentInput`. -/
structure GetEvidenceFoldersByAssessmentInput where
  AssessmentId : Option String
deriving DecidableEq

/-- SDK type `auditmanager.GetEvidenceFoldersByAssessmentOutput` (one page). -/
structure GetEvidenceFoldersByAssessmentOutput where
  EvidenceFolders : List AssessmentEvidenceFolder
deriving DecidableEq

end auditmanager

open auditmanager

/-- Row type of the table (lines 14-18). -/
structure evidenceInfo where
  Evidence : Option auditmanager.Evidence
  AssessmentID : Option String
  ControlSetID : Option String
deriving DecidableEq

/-- Answers of the outside world to one invocation of `getRowDataForEvidence`:
the error of `AuditManagerService` (`none`: the service was created) and the
response of the service to a `GetEvidenceByEvidenceFolder` request. -/
structure Env where
  AuditManagerService : Option Error
  GetEvidenceByEvidenceFolder :
    GetEvidenceByEvidenceFolderInput → Except Error GetEvidenceByEvidenceFolderOutput

/-- Result pair of `getRowDataForEvidence`, with the requests it sent to
`GetEvidenceByEvidenceFolder`, in order. -/
structure RowData where
  rowData : Slice evidenceInfo
  err : Option Error
  calls : List GetEvidenceByEvidenceFolderInput
deriving DecidableEq

/-- Lines 234-257. -/
def getRowDataForEvidence (env : Env) (item : AssessmentEvidenceFolder) : RowData :=
  match env.AuditManagerService with
  | some err => ⟨Slice.nil, some err, []⟩
  | none =>
    let params : GetEvidenceByEvidenceFolderInput :=
      { AssessmentId := item.AssessmentId
        ControlSetId := item.ControlSetId
        EvidenceFolderId := item.Id }
    match env.GetEvidenceByEvidenceFolder params with
    | Except.error err => ⟨Slice.nil, some err, [params]⟩
    | Except.ok listEvidence =>
      let items := listEvidence.Evidence.foldl
        (fun (items : Slice evidenceInfo) evidence =>
          items.append ⟨evidence, item.AssessmentId, item.ControlSetId⟩)
        Slice.nil
      ⟨items, none, [params]⟩

/-- Program point of one `getRowDataForEvidenceAsync` goroutine (lines 223-232).
The local variables `rowData, err` exist from line 226 on. -/
inductive TaskPc where
  /-- Spawned, line 226 not yet executed. -/
  | fetching : TaskPc
  /-- Line 226 done, the `if` of lines 227-231 is next. -/
  | sending (rowData : Slice evidenceInfo) (err : Option Error) : TaskPc
  /-- Body done, the deferred `wg.Done()` of line 224 is next. -/
  | finishing (rowData : Slice evidenceInfo) (err : Option Error) : TaskPc
  /-- The goroutine has returned. -/
  | done (rowData : Slice evidenceInfo) (err : Option Error) : TaskPc
deriving DecidableEq

/-- One spawned goroutine: its argument `item` (passed by value at the `go`
statement) and its program point. -/
structure Task where
  item : AssessmentEvidenceFolder
  pc : TaskPc
deriving DecidableEq

/-- Program point of `listAuditManagerEvidences` from line 200 on. -/
inductive MainPc where
  /-- In the loop of lines 200-203 with these folders still to visit; with none
  left, at `wg.Wait()` (line 206). -/
  | spawning (rest : List AssessmentEvidenceFolder) : MainPc
  /-- `wg.Wait()` has returned, line 207 is next. -/
  | joined : MainPc
  /-- The function has returned `(nil, err)`. -/
  | returned (err : Option Error) : MainPc
deriving DecidableEq

/-- Shared state of one run of `listAuditManagerEvidences`. `streamed`,
`fetches` and `calls` record, in order, the rows handed to
`d.StreamLeafListItem`, the invocations of `getRowDataForEvidence` (goroutine
number and argument) and the `GetEvidenceByEvidenceFolder` requests. -/
structure State where
  pc : MainPc
  tasks : List Task
  wg : Nat
  cap : Nat
  evidenceCh : List (Slice evidenceInfo)
  errorCh : List Error
  err : Option Error
  streamed : List evidenceInfo
  fetches : List (Nat × AssessmentEvidenceFolder)
  calls : List (Nat × GetEvidenceByEvidenceFolderInput)
deriving DecidableEq

/-- The outside world of one run: the error of the caller's
`AuditManagerService`, the parent assessment id, the pages (each with its
`isLast` flag) and final error of `GetEvidenceFoldersByAssessmentPages`, and the
answers given to the goroutine spawned for the `i`-th folder. -/
structure World where
  AuditManagerService : Option Error
  assessmentID : String
  GetEvidenceFoldersByAssessmentPages :
    GetEvidenceFoldersByAssessmentInput →
      List (GetEvidenceFoldersByAssessmentOutput × Bool) × Option Error
  fetchEnv : Nat → Env

/-- SDK pager protocol: the callback is called on each delivered page until it
returns `false`. -/
def eachPage {σ π : Type} (fn : σ → π → Bool → σ × Bool) : List (π × Bool) → σ → σ
  | [], acc => acc
  | (page, isLast) :: rest, acc =>
    let r := fn acc page isLast
    if r.2 then eachPage fn rest r.1 else r.1

/-- Page callback of lines 187-192. -/
def collectPage (evidenceFolders : List AssessmentEvidenceFolder)
    (page : GetEvidenceFoldersByAssessmentOutput) (isLast : Bool) :
    List AssessmentEvidenceFolder × Bool :=
  (page.EvidenceFolders.foldl (fun acc evidenceFolder => acc ++ [evidenceFolder])
    evidenceFolders, !isLast)

/-- Lines 180-193: the folders collected by the list call and its error. -/
def listFolders (w : World) : List AssessmentEvidenceFolder × Option Error :=
  let r := w.GetEvidenceFoldersByAssessmentPages { AssessmentId := some w.assessmentID }
  (eachPage collectPage r.1 [], r.2)

/-- Lines 167-197: state on reaching the loop of line 200, or the early return
of line 177. Both channels get capacity `len(evidenceFolders)`. -/
def init (w : World) : State :=
  match w.AuditManagerService with
  | some err =>
    { pc := MainPc.returned (some err), tasks := [], wg := 0, cap := 0, evidenceCh := [],
      errorCh := [], err := some err, streamed := [], fetches := [], calls := [] }
  | none =>
    let r := listFolders w
    { pc := MainPc.spawning r.1, tasks := [], wg := 0, cap := r.1.length, evidenceCh := [],
      errorCh := [], err := r.2, streamed := [], fetches := [], calls := [] }

/-- Lines 214-218: rows streamed while ranging over the closed `evidenceCh`. -/
def streamAll : List (Slice evidenceInfo) → List evidenceInfo
  | [] => []
  | item :: rest =>
    item.toList.map (fun data => ⟨data.Evidence, data.AssessmentID, data.ControlSetID⟩)
      ++ streamAll rest

/-- Lines 200-220 of `listAuditManagerEvidences`, one step at a time; `none`
when it is blocked in `wg.Wait()` or has returned. -/
def listAuditManagerEvidencesStep (s : State) : Option State :=
  match s.pc with
  | MainPc.spawning (item :: rest) =>
    -- lines 201-202: wg.Add(1); go getRowDataForEvidenceAsync(..., item, ...)
    some { s with wg := s.wg + 1, tasks := s.tasks ++ [⟨item, TaskPc.fetching⟩],
                  pc := MainPc.spawning rest }
  | MainPc.spawning [] =>
    -- line 206: wg.Wait() returns once the counter is zero
    if s.wg = 0 then some { s with pc := MainPc.joined } else none
  | MainPc.joined =>
    -- lines 207-220: close both channels, range over them
    match s.errorCh with
    | err :: rest => some { s with errorCh := rest, pc := MainPc.returned (some err) }
    | [] =>
      some { s with streamed := s.streamed ++ streamAll s.evidenceCh, evidenceCh := [],
                    pc := MainPc.returned s.err }
  | MainPc.returned _ => none

/-- Lines 223-232, one step at a time, for the goroutine spawned for the `i`-th
folder; `none` when it does not exist, has returned, is blocked on a full
channel, or `wg.Done()` would make the counter negative. -/
def getRowDataForEvidenceAsync (w : World) (s : State) (i : Nat) : Option State :=
  match s.tasks[i]? with
  | none => none
  | some t =>
    match t.pc with
    | TaskPc.fetching =>
      -- line 226
      let r := getRowDataForEvidence (w.fetchEnv i) t.item
      some { s with tasks := s.tasks.set i ⟨t.item, TaskPc.sending r.rowData r.err⟩,
                    fetches := s.fetches ++ [(i, t.item)],
                    calls := s.calls ++ r.calls.map (fun c => (i, c)) }
    | TaskPc.sending rowData err =>
      match err with
      | some e =>
        -- line 228: errorCh <- err
        if s.errorCh.length < s.cap then
          some { s with errorCh := s.errorCh ++ [e],
                        tasks := s.tasks.set i ⟨t.item, TaskPc.finishing rowData err⟩ }
        else none
      | none =>
        match rowData with
        | Slice.mk l =>
          -- line 230: subnetCh <- rowData
          if s.evidenceCh.length < s.cap then
            some { s with evidenceCh := s.evidenceCh ++ [Slice.mk l],
                          tasks := s.tasks.set i ⟨t.item, TaskPc.finishing rowData err⟩ }
          else none
        | Slice.nil =>
          some { s with tasks := s.tasks.set i ⟨t.item, TaskPc.finishing rowData err⟩ }
    | TaskPc.finishing rowData err =>
      -- line 224: deferred wg.Done()
      if 0 < s.wg then
        some { s with wg := s.wg - 1, tasks := s.tasks.set i ⟨t.item, TaskPc.done rowData err⟩ }
      else none
    | TaskPc.done _ _ => none

/-- One scheduler step: thread `0` is `listAuditManagerEvidences`, thread `i + 1`
the goroutine of the `i`-th folder. -/
def step (w : World) (s : State) : Nat → Option State
  | 0 => listAuditManagerEvidencesStep s
  | i + 1 => getRowDataForEvidenceAsync w s i

/-- Run a schedule (the threads to step, in order); `none` if it picks a thread
that cannot step. -/
def exec (w : World) : List Nat → State → Option State
  | [], s => some s
  | tid :: rest, s => (step w s tid).bind (exec w rest)

/-- The state `listAuditManagerEvidences` reaches from its entry under the
schedule `sched`. -/
abbrev listAuditManagerEvidences (w : World) (sched : List Nat) : Option State :=
  exec w sched (init w)

/-! ## Specification-level functions -/

/-- Results of the fetches in folder order: the `j`-th entry is what
`getRowDataForEvidence` returns for the `j`-th folder, goroutine numbers starting
at `k`. -/
def results (w : World) : Nat → List AssessmentEvidenceFolder → List RowData
  | _, [] => []
  | k, f :: fs => getRowDataForEvidence (w.fetchEnv k) f :: results w (k + 1) fs

/-- Errors of the failing fetches, in folder order. -/
def errorsOf : List RowData → List Error
  | [] => []
  | r :: rs => r.err.toList ++ errorsOf rs

/-- Concatenation of the batches of the fetches, in folder order. -/
def recordsOf : List RowData → List evidenceInfo
  | [] => []
  | r :: rs => r.rowData.toList ++ recordsOf rs

/-- Batches the goroutines push to `evidenceCh`, in folder order: the non-nil
`rowData` of the fetches that returned no error. -/
def batchesOf : List RowData → List (Slice evidenceInfo)
  | [] => []
  | r :: rs =>
    (match r.err, r.rowData with
      | none, Slice.mk l => [Slice.mk l]
      | _, _ => []) ++ batchesOf rs

/-- Folders paired with their position, starting at `k`. -/
def indexed {α : Type} : Nat → List α → List (Nat × α)
  | _, [] => []
  | k, a :: as => (k, a) :: indexed (k + 1) as

/-- Requests of all fetches, in folder order, each with its goroutine number. -/
def requestsOf : Nat → List RowData → List (Nat × GetEvidenceByEvidenceFolderInput)
  | _, [] => []
  | k, r :: rs => r.calls.map (fun c => (k, c)) ++ requestsOf (k + 1) rs

/-! ## Bookkeeping over the goroutine list -/

/-- Concatenation of per-goroutine contributions, goroutine numbers from `k`. -/
def gather {β : Type} (g : Nat → Task → List β) : Nat → List Task → List β
  | _, [] => []
  | k, t :: ts => g k t ++ gather g (k + 1) ts

/-- Error this goroutine has pushed to `errorCh`. -/
def errOf (_ : Nat) (t : Task) : List Error :=
  match t.pc with
  | TaskPc.finishing _ (some e) => [e]
  | TaskPc.done _ (some e) => [e]
  | _ => []

/-- Batch this goroutine has pushed to `evidenceCh`. -/
def evOf (_ : Nat) (t : Task) : List (Slice evidenceInfo) :=
  match t.pc with
  | TaskPc.finishing (Slice.mk l) none => [Slice.mk l]
  | TaskPc.done (Slice.mk l) none => [Slice.mk l]
  | _ => []

/-- Invocation of `getRowDataForEvidence` this goroutine has made. -/
def fetchOf (k : Nat) (t : Task) : List (Nat × AssessmentEvidenceFolder) :=
  match t.pc with
  | TaskPc.fetching => []
  | _ => [(k, t.item)]

/-- Requests this goroutine has sent. -/
def callOf (w : World) (k : Nat) (t : Task) : List (Nat × GetEvidenceByEvidenceFolderInput) :=
  match t.pc with
  | TaskPc.fetching => []
  | _ => (getRowDataForEvidence (w.fetchEnv k) t.item).calls.map (fun c => (k, c))

/-- The goroutine has returned. -/
def Task.isDone (t : Task) : Bool :=
  match t.pc with
  | TaskPc.done _ _ => true
  | _ => false

/-- The goroutine is past the `if` of lines 227-231. -/
def Task.pastSend (t : Task) : Bool :=
  match t.pc with
  | TaskPc.finishing _ _ => true
  | TaskPc.done _ _ => true
  | _ => false

/-- The locals `rowData, err` of goroutine `k` hold what its fetch returned. -/
def taskOK (w : World) (k : Nat) (t : Task) : Prop :=
  match t.pc with
  | TaskPc.fetching => True
  | TaskPc.sending r e =>
    r = (getRowDataForEvidence (w.fetchEnv k) t.item).rowData ∧
      e = (getRowDataForEvidence (w.fetchEnv k) t.item).err
  | TaskPc.finishing r e =>
    r = (getRowDataForEvidence (w.fetchEnv k) t.item).rowData ∧
      e = (getRowDataForEvidence (w.fetchEnv k) t.item).err
  | TaskPc.done r e =>
    r = (getRowDataForEvidence (w.fetchEnv k) t.item).rowData ∧
      e = (getRowDataForEvidence (w.fetchEnv k) t.item).err

/-- All goroutines of the list satisfy `taskOK`, numbers from `k`. -/
def TasksOK (w : World) : Nat → List Task → Prop
  | _, [] => True
  | k, t :: ts => taskOK w k t ∧ TasksOK w (k + 1) ts

/-- Steps the goroutine still has to take. -/
def taskRank (t : Task) : Nat :=
  match t.pc with
  | TaskPc.fetching => 3
  | TaskPc.sending _ _ => 2
  | TaskPc.finishing _ _ => 1
  | TaskPc.done _ _ => 0

/-- Folders the loop of line 200 still has to visit. -/
def MainPc.rest : MainPc → List AssessmentEvidenceFolder
  | MainPc.spawning r => r
  | _ => []

/-- Steps `listAuditManagerEvidences` still has to take, the steps of the
goroutines it will spawn included. -/
def mainRank : MainPc → Nat
  | MainPc.spawning r => 4 * r.length + 2
  | MainPc.joined => 1
  | MainPc.returned _ => 0

/-- Number of steps left in the whole run. -/
def measure (s : State) : Nat :=
  mainRank s.pc + (s.tasks.map taskRank).sum

/-- The function has returned. -/
def MainPc.isReturned : MainPc → Bool
  | MainPc.returned _ => true
  | _ => false

/-- The function is in the loop of line 200 or at `wg.Wait()`. -/
def MainPc.isSpawning : MainPc → Bool
  | MainPc.spawning _ => true
  | _ => false

/-! ## The invariant of a run -/

/-- What holds in every state of a run whose caller-side service creation
succeeded. -/
structure Inv (w : World) (s : State) : Prop where
  cap : s.cap = (listFolders w).1.length
  err : s.err = (listFolders w).2
  items : s.tasks.map Task.item ++ s.pc.rest = (listFolders w).1
  wg : s.wg = s.tasks.countP (fun t => !t.isDone)
  ok : TasksOK w 0 s.tasks
  alldone : s.pc.isSpawning = false → ∀ t ∈ s.tasks, t.isDone = true
  errCh : s.pc.isReturned = false → List.Perm s.errorCh (gather errOf 0 s.tasks)
  evCh : s.pc.isReturned = false → List.Perm s.evidenceCh (gather evOf 0 s.tasks)
  quiet : s.pc.isReturned = false → s.streamed = []
  fetches : List.Perm s.fetches (gather fetchOf 0 s.tasks)
  calls : List.Perm s.calls (gather (callOf w) 0 s.tasks)
  ret : ∀ r, s.pc = MainPc.returned r →
    ∃ E V, List.Perm E (gather errOf 0 s.tasks) ∧ List.Perm V (gather evOf 0 s.tasks) ∧
      ((∃ e E2, E = e :: E2 ∧ r = some e ∧ s.streamed = []) ∨
        (E = [] ∧ r = s.err ∧ s.streamed = streamAll V))

/-! ## Concrete worlds -/

/-- First sample folder. -/
def folderA : AssessmentEvidenceFolder :=
  { AssessmentId := some "assessment-1", ControlSetId := some "control-set-1",
    Id := some "folder-a" }

/-- Second sample folder. -/
def folderB : AssessmentEvidenceFolder :=
  { AssessmentId := some "assessment-1", ControlSetId := some "control-set-2",
    Id := some "folder-b" }

/-- Sample evidence with the given id. -/
def sampleEvidence (id : String) : Option Evidence :=
  some { Id := some id, EvidenceFolderId := none }

/-- Service that answers two evidence records for `folder-a` and an empty list
for every other folder. -/
def envOk : Env :=
  { AuditManagerService := none
    GetEvidenceByEvidenceFolder := fun params =>
      if params.EvidenceFolderId = some "folder-a" then
        Except.ok ⟨[sampleEvidence "ev-1", sampleEvidence "ev-2"]⟩
      else Except.ok ⟨[]⟩ }

/-- Service whose `GetEvidenceByEvidenceFolder` call is refused. -/
def envDenied : Env :=
  { AuditManagerService := none
    GetEvidenceByEvidenceFolder := fun _ => Except.error ⟨"AccessDeniedException"⟩ }

/-- Service that cannot be created. -/
def envNoService : Env :=
  { AuditManagerService := some ⟨"region must be passed"⟩
    GetEvidenceByEvidenceFolder := fun _ => Except.ok ⟨[]⟩ }

/-- Two folders delivered in two pages, every fetch succeeds; the batch of
`folder-b` is empty. -/
def worldOk : World :=
  { AuditManagerService := none
    assessmentID := "assessment-1"
    GetEvidenceFoldersByAssessmentPages := fun _ =>
      ([(⟨[folderA]⟩, false), (⟨[folderB]⟩, true)], none)
    fetchEnv := fun _ => envOk }

/-- Two folders, the fetch of the second one is refused. -/
def worldDenied : World :=
  { AuditManagerService := none
    assessmentID := "assessment-1"
    GetEvidenceFoldersByAssessmentPages := fun _ =>
      ([(⟨[folderA, folderB]⟩, true)], none)
    fetchEnv := fun i => if i = 1 then envDenied else envOk }

/-- The folder listing delivers one page and then fails on the next one; the
fetch of the delivered folder succeeds. -/
def worldPartial : World :=
  { AuditManagerService := none
    assessmentID := "assessment-1"
    GetEvidenceFoldersByAssessmentPages := fun _ =>
      ([(⟨[folderA]⟩, false)], some ⟨"ThrottlingException"⟩)
    fetchEnv := fun _ => envOk }

/-- One folder that holds no evidence. -/
def worldEmptyBatch : World :=
  { AuditManagerService := none
    assessmentID := "assessment-1"
    GetEvidenceFoldersByAssessmentPages := fun _ => ([(⟨[folderB]⟩, true)], none)
    fetchEnv := fun _ => envOk }

/-- An assessment without evidence folders. -/
def worldNone : World :=
  { AuditManagerService := none
    assessmentID := "assessment-1"
    GetEvidenceFoldersByAssessmentPages := fun _ => ([(⟨[]⟩, true)], none)
    fetchEnv := fun _ => envOk }

/-- State in which the run of `worldOk` returns: the batch of `folder-a` and no
batch for `folder-b`. -/
def returnedOk : State :=
  { pc := MainPc.returned none
    tasks := [⟨folderA, TaskPc.done (getRowDataForEvidence envOk folderA).rowData none⟩,
      ⟨folderB, TaskPc.done Slice.nil none⟩]
    wg := 0, cap := 2, evidenceCh := [], errorCh := [], err := none
    streamed := (getRowDataForEvidence envOk folderA).rowData.toList
    fetches := [(1, folderB), (0, folderA)]
    calls := [(1, ⟨some "assessment-1", some "control-set-2", some "folder-b"⟩),
      (0, ⟨some "assessment-1", some "control-set-1", some "folder-a"⟩)] }

/-- State in which the run of `worldDenied` returns when its goroutines finish
in spawn order. -/
def returnedDenied : State :=
  { pc := MainPc.returned (some ⟨"AccessDeniedException"⟩)
    tasks := [⟨folderA, TaskPc.done (getRowDataForEvidence envOk folderA).rowData none⟩,
      ⟨folderB, TaskPc.done Slice.nil (some ⟨"AccessDeniedException"⟩)⟩]
    wg := 0, cap := 2
    evidenceCh := [(getRowDataForEvidence envOk folderA).rowData]
    errorCh := [], err := none, streamed := []
    fetches := [(0, folderA), (1, folderB)]
    calls := [(0, ⟨some "assessment-1", some "control-set-1", some "folder-a"⟩),
      (1, ⟨some "assessment-1", some "control-set-2", some "folder-b"⟩)] }

/-- State in which the run of `worldNone` returns. -/
def returnedNone : State :=
  { pc := MainPc.returned none, tasks := [], wg := 0, cap := 0, evidenceCh := [],
    errorCh := [], err := none, streamed := [], fetches := [], calls := [] }

/-! ## The order of the pushes to `errorCh` -/

/-- What thread `tid` is about to push to `errorCh` in state `s`: goroutine `i`
standing at line 228 with the error `e`. -/
def pushOf (s : State) : Nat → List (Nat × Error)
  | 0 => []
  | i + 1 =>
    match s.tasks[i]? with
    | some t =>
      match t.pc with
      | TaskPc.sending _ (some e) => [(i, e)]
      | _ => []
    | none => []

/-- Pushes to `errorCh` made while running a schedule from `s`, in the order in
which they happened, each with the number of the goroutine that made it. -/
def pushLog (w : World) : List Nat → State → List (Nat × Error)
  | [], _ => []
  | tid :: rest, s =>
    match step w s tid with
    | none => []
    | some s2 => pushOf s tid ++ pushLog w rest s2

/-- Service whose `GetEvidenceByEvidenceFolder` call is throttled. -/
def envThrottled : Env :=
  { AuditManagerService := none
    GetEvidenceByEvidenceFolder := fun _ => Except.error ⟨"ThrottlingException"⟩ }

/-- Two folders whose fetches both fail, with different errors. -/
def worldBothFail : World :=
  { AuditManagerService := none
    assessmentID := "assessment-1"
    GetEvidenceFoldersByAssessmentPages := fun _ =>
      ([(⟨[folderA, folderB]⟩, true)], none)
    fetchEnv := fun i => if i = 0 then envThrottled else envDenied }

/-- State in which the run of `worldBothFail` returns when the goroutine of
`folder-b` pushes its error before the goroutine of `folder-a`. -/
def returnedBothFail : State :=
  { pc := MainPc.returned (some ⟨"AccessDeniedException"⟩)
    tasks := [⟨folderA, TaskPc.done Slice.nil (some ⟨"ThrottlingException"⟩)⟩,
      ⟨folderB, TaskPc.done Slice.nil (some ⟨"AccessDeniedException"⟩)⟩]
    wg := 0, cap := 2, evidenceCh := []
    errorCh := [⟨"ThrottlingException"⟩], err := none, streamed := []
    fetches := [(0, folderA), (1, folderB)]
    calls := [(0, ⟨some "assessment-1", some "control-set-1", some "folder-a"⟩),
      (1, ⟨some "assessment-1", some "control-set-2", some "folder-b"⟩)] }

/-! ## Hydrate functions of the other tables -/

/-- Outcome of a hydrate function: the pair `(item, err)` it returns, or a
run-time panic. -/
inductive Hydrated (α : Type) where
  | ret (item : Option α) (err : Option Error) : Hydrated α
  | panic : Hydrated α
deriving DecidableEq

namespace ec2

/-- SDK type `ec2.Snapshot` (the fields the table reads by name). -/
structure Snapshot where
  SnapshotId : Option String
  VolumeId : Option String
deriving DecidableEq

/-- SDK type `ec2.DescribeSnapshotsInput`. -/
structure DescribeSnapshotsInput where
  SnapshotIds : List (Option String)
deriving DecidableEq

/-- SDK type `ec2.DescribeSnapshotsOutput`. -/
structure DescribeSnapshotsOutput where
  Snapshots : Slice (Option Snapshot)
deriving DecidableEq

end ec2

/-- Answers of the outside world to one invocation of `getAwsEBSSnapshot`: the
`snapshot_id` key qualifier, the error of `Ec2Service` and the response of
`DescribeSnapshots`. -/
structure Ec2Env where
  snapshot_id : String
  Ec2Service : Option Error
  DescribeSnapshots : ec2.DescribeSnapshotsInput → Except Error ec2.DescribeSnapshotsOutput

/-- Lines 168-196 of `table_aws_ebs_snapshot.go`. The index expression
`data.Snapshots[0]` panics when the slice holds no element. -/
def getAwsEBSSnapshot (env : Ec2Env) : Hydrated (Option ec2.Snapshot) :=
  match env.Ec2Service with
  | some err => Hydrated.ret none (some err)
  | none =>
    let params : ec2.DescribeSnapshotsInput := { SnapshotIds := [some env.snapshot_id] }
    match env.DescribeSnapshots params with
    | Except.error err => Hydrated.ret none (some err)
    | Except.ok data =>
      match data.Snapshots with
      | Slice.mk l =>
        -- line 193: return data.Snapshots[0], nil
        match l[0]? with
        | some snapshot => Hydrated.ret (some snapshot) none
        | none => Hydrated.panic
      | Slice.nil => Hydrated.ret none none

/-- A `DescribeSnapshots` response whose `Snapshots` slice is non-nil and
empty. -/
def envEmptySnapshots : Ec2Env :=
  { snapshot_id := "snap-0123"
    Ec2Service := none
    DescribeSnapshots := fun _ => Except.ok ⟨Slice.mk []⟩ }

namespace costexplorer

/-- SDK type `costexplorer.DateInterval`. -/
structure DateInterval where
  Start : Option String
  End : Option String
deriving DecidableEq

/-- SDK type `costexplorer.GroupDefinition` (its field `Type` is `Type_` here). -/
structure GroupDefinition where
  Type_ : Option String
  Key : Option String
deriving DecidableEq

/-- SDK type `costexplorer.GetCostAndUsageInput` (the fields the builder sets). -/
structure GetCostAndUsageInput where
  TimePeriod : Option DateInterval
  Granularity : Option String
  Metrics : List (Option String)
  GroupBy : List (Option GroupDefinition)
deriving DecidableEq

end costexplorer

/-- Go `time.Time`, as seconds since the epoch. -/
structure Time where
  unix : Int
deriving DecidableEq

/-- What `buildCostByLinkedAccountInput` takes from outside this file: the
clock `time.Now()`, the standard library `Time.Format`, and the helpers
`getCEStartDateForGranularity` and `AllCostMetrics`. -/
structure CostEnv where
  Now : Time
  Format : Time → String → String
  getCEStartDateForGranularity : String → Time
  AllCostMetrics : List String

/-- Lines 44-68 of `table_aws_cost_by_account_monthly.go`. -/
def buildCostByLinkedAccountInput (env : CostEnv) (granularity : String) :
    costexplorer.GetCostAndUsageInput :=
  let timeFormat := if granularity = "HOURLY" then "2006-01-02T15:04:05Z" else "2006-01-02"
  let endTime := env.Format env.Now timeFormat
  let startTime := env.Format (env.getCEStartDateForGranularity granularity) timeFormat
  { TimePeriod := some { Start := some startTime, End := some endTime }
    Granularity := some granularity
    Metrics := env.AllCostMetrics.map some
    GroupBy := [some { Type_ := some "DIMENSION", Key := some "LINKED_ACCOUNT" }] }

/-- Lines 38-42: the request handed to `streamCostAndUsage`. -/
def listCostByLinkedAccountMonthly {ρ : Type} (env : CostEnv)
    (streamCostAndUsage : costexplorer.GetCostAndUsageInput → ρ) : ρ :=
  let params := buildCostByLinkedAccountInput env "MONTHLY"
  streamCostAndUsage params

/-- Sample clock and formatter: the formatted time shows the layout used. -/
def sampleCostEnv : CostEnv :=
  { Now := ⟨1700000000⟩
    Format := fun t layout => layout ++ "@" ++ toString t.unix
    getCEStartDateForGranularity := fun _ => ⟨1690000000⟩
    AllCostMetrics := ["BlendedCost", "UnblendedCost"] }

/-- Type `awsCommonColumnData` returned by `getCommonColumns`. -/
structure awsCommonColumnData where
  Partition : String
  Region : String
  AccountId : String
deriving DecidableEq

/-- Lines 294-309 of `table_aws_auditmanager_evidence.go`; `region` is the
region key qualifier and `common` what the cached `getCommonColumns` returns.
Line 297 dereferences `Evidence.Id` before `getCommonColumns` is called. -/
def getAuditManagerEvidenceARN (region : String) (common : Except Error awsCommonColumnData)
    (item : evidenceInfo) : Hydrated String :=
  match item.Evidence with
  | none => Hydrated.panic
  | some evidence =>
    match evidence.Id with
    | none => Hydrated.panic
    | some evidenceID =>
      match common with
      | Except.error err => Hydrated.ret none (some err)
      | Except.ok commonColumnData =>
        let arn := "arn:" ++ commonColumnData.Partition ++ ":auditmanager:" ++ region ++ ":" ++
          commonColumnData.AccountId ++ ":evidence/" ++ evidenceID
        Hydrated.ret (some arn) none

/-- Lines 224-239 of `table_aws_ebs_snapshot.go`. Line 236 dereferences
`snapshotData.SnapshotId` after the error check. -/
def getEBSSnapshotARN (region : String) (common : Except Error awsCommonColumnData)
    (item : Option ec2.Snapshot) : Hydrated String :=
  match common with
  | Except.error err => Hydrated.ret none (some err)
  | Except.ok commonColumnData =>
    match item with
    | none => Hydrated.panic
    | some snapshotData =>
      match snapshotData.SnapshotId with
      | none => Hydrated.panic
      | some snapshotId =>
        let arn := "arn:" ++ commonColumnData.Partition ++ ":ec2:" ++ region ++ ":" ++
          commonColumnData.AccountId ++ ":snapshot/" ++ snapshotId
        Hydrated.ret (some arn) none

namespace guardduty

/-- SDK type `guardduty.GetDetectorOutput` (the fields the table reads by name). -/
structure GetDetectorOutput where
  Status : Option String
  ServiceRole : Option String
  FindingPublishingFrequency : Option String
deriving DecidableEq

/-- SDK type `guardduty.GetDetectorInput`. -/
structure GetDetectorInput where
  DetectorId : Option String
deriving DecidableEq

/-- SDK type `guardduty.ListDetectorsOutput` (one page). -/
structure ListDetectorsOutput where
  DetectorIds : List (Option String)
deriving DecidableEq

end guardduty

/-- Row type of the detector table (lines 12-15 of
`table_aws_guardduty_detector.go`). -/
structure detectorInfo where
  GetDetectorOutput : guardduty.GetDetectorOutput
  DetectorID : String
deriving DecidableEq

/-- Lines 164-178 of `table_aws_guardduty_detector.go`. -/
def getGuardDutyDetectorARN (region : String) (common : Except Error awsCommonColumnData)
    (data : detectorInfo) : Hydrated String :=
  match common with
  | Except.error err => Hydrated.ret none (some err)
  | Except.ok commonColumnData =>
    let arn := "arn:" ++ commonColumnData.Partition ++ ":guardduty:" ++ region ++ ":" ++
      commonColumnData.AccountId ++ ":detector/" ++ data.DetectorID
    Hydrated.ret (some arn) none

/-- The ARN as the specification spells it, piece by piece. -/
def arnOf (partition service region accountId kind id : String) : String :=
  "arn:" ++ partition ++ ":" ++ service ++ ":" ++ region ++ ":" ++ accountId ++ ":" ++ kind ++
    "/" ++ id

/-- Answers of the outside world to the detector functions: the `detector_id`
key qualifier, the error of `GuardDutyService`, the response of `GetDetector`,
and the pages and final error of `ListDetectorsPages`. -/
structure GuardDutyEnv where
  detector_id : String
  GuardDutyService : Option Error
  GetDetector : guardduty.GetDetectorInput → Except Error guardduty.GetDetectorOutput
  ListDetectorsPages : List (guardduty.ListDetectorsOutput × Bool) × Option Error

/-- What `getGuardDutyDetector` returns, with the requests it sent to
`GetDetector`. -/
structure DetectorResult where
  result : Hydrated detectorInfo
  requests : List guardduty.GetDetectorInput
deriving DecidableEq

/-- Lines 133-162 of `table_aws_guardduty_detector.go`; `hItem` is `h.Item`. -/
def getGuardDutyDetector (env : GuardDutyEnv) (hItem : Option detectorInfo) :
    DetectorResult :=
  let id :=
    match hItem with
    | some item => item.DetectorID
    | none => env.detector_id
  match env.GuardDutyService with
  | some err => ⟨Hydrated.ret none (some err), []⟩
  | none =>
    let params : guardduty.GetDetectorInput := { DetectorId := some id }
    match env.GetDetector params with
    | Except.error err => ⟨Hydrated.ret none (some err), [params]⟩
    | Except.ok op => ⟨Hydrated.ret (some ⟨op, id⟩) none, [params]⟩

/-- Rows streamed so far by `listGuardDutyDetectors`, and whether a nil detector
id has been dereferenced. -/
structure DetectorStream where
  streamed : List detectorInfo
  panicked : Bool
deriving DecidableEq

/-- Page callback of lines 118-125: one row per detector id of the page. -/
def streamDetectorPage (acc : DetectorStream) (page : guardduty.ListDetectorsOutput)
    (isLast : Bool) : DetectorStream × Bool :=
  let out := page.DetectorIds.foldl
    (fun (acc : DetectorStream) result =>
      if acc.panicked then acc
      else
        match result with
        | some id => { acc with streamed := acc.streamed ++ [⟨⟨none, none, none⟩, id⟩] }
        | none => { acc with panicked := true })
    acc
  (out, !isLast && !out.panicked)

/-- What `listGuardDutyDetectors` streams and returns. -/
structure DetectorListing where
  streamed : List detectorInfo
  result : Hydrated Unit
deriving DecidableEq

/-- Lines 109-129 of `table_aws_guardduty_detector.go`. -/
def listGuardDutyDetectors (env : GuardDutyEnv) : DetectorListing :=
  match env.GuardDutyService with
  | some err => ⟨[], Hydrated.ret none (some err)⟩
  | none =>
    let out := eachPage streamDetectorPage env.ListDetectorsPages.1 ⟨[], false⟩
    if out.panicked then ⟨out.streamed, Hydrated.panic⟩
    else ⟨out.streamed, Hydrated.ret none env.ListDetectorsPages.2⟩

/-- Two detectors listed on one page; `GetDetector` answers an enabled
detector. -/
def sampleGuardDutyEnv : GuardDutyEnv :=
  { detector_id := "detector-from-qual"
    GuardDutyService := none
    GetDetector := fun _ => Except.ok ⟨some "ENABLED", none, none⟩
    ListDetectorsPages := ([(⟨[some "detector-1", some "detector-2"]⟩, true)], none) }

/-! ## Basic lemmas -/

theorem gather_append {β : Type} (g : Nat → Task → List β) (l1 l2 : List Task) (k : Nat) :
    gather g k (l1 ++ l2) = gather g k l1 ++ gather g (k + l1.length) l2 := by
  induction l1 generalizing k with
  | nil => simp [gather]
  | cons t ts ih =>
    have e : k + 1 + ts.length = k + (ts.length + 1) := by omega
    simp [gather, ih, e]

theorem TasksOK_append (w : World) (l1 l2 : List Task) (k : Nat) :
    TasksOK w k (l1 ++ l2) ↔ TasksOK w k l1 ∧ TasksOK w (k + l1.length) l2 := by
  induction l1 generalizing k with
  | nil => simp [TasksOK]
  | cons t ts ih =>
    have e : k + 1 + ts.length = k + (ts.length + 1) := by omega
    simp [TasksOK, ih, e, and_assoc]

theorem getElem?_split {α : Type} (l : List α) (i : Nat) (a : α) (h : l[i]? = some a) :
    ∃ l1 l2, l = l1 ++ a :: l2 ∧ l1.length = i := by
  induction l generalizing i with
  | nil => simp at h
  | cons b bs ih =>
    cases i with
    | zero =>
      simp at h
      exact ⟨[], bs, by simp [h], rfl⟩
    | succ j =>
      simp at h
      obtain ⟨l1, l2, h1, h2⟩ := ih j h
      exact ⟨b :: l1, l2, by simp [h1], by simp [h2]⟩

theorem set_split {α : Type} (l1 l2 : List α) (a b : α) :
    (l1 ++ a :: l2).set l1.length b = l1 ++ b :: l2 := by
  induction l1 with
  | nil => simp
  | cons c cs ih => simp [ih]

/-- Channel bookkeeping under the update of one goroutine that pushes `new`. -/
theorem perm_gather_set {β : Type} (g : Nat → Task → List β) (l1 l2 : List Task)
    (t t2 : Task) (ch new : List β) (h : List.Perm ch (gather g 0 (l1 ++ t :: l2)))
    (hg : g l1.length t2 = g l1.length t ++ new) :
    List.Perm (ch ++ new) (gather g 0 (l1 ++ t2 :: l2)) := by
  rw [gather_append] at h ⊢
  simp only [gather, Nat.zero_add] at h ⊢
  rw [hg]
  refine (h.append_right new).trans ?_
  rw [← Multiset.coe_eq_coe]
  simp only [← Multiset.coe_add]
  abel

/-! ## The invariant is established and preserved -/

theorem inv_init (w : World) (h : w.AuditManagerService = none) : Inv w (init w) := by
  constructor <;> simp [init, h, gather, TasksOK, MainPc.rest, MainPc.isSpawning,
    MainPc.isReturned]

/-- The shapes a goroutine step can take. -/
theorem getRowDataForEvidenceAsync_cases (w : World) (s s2 : State) (i : Nat) (h : getRowDataForEvidenceAsync w s i = some s2) :
    ∃ l1 l2 t, s.tasks = l1 ++ t :: l2 ∧ l1.length = i ∧
      ((t.pc = TaskPc.fetching ∧
          s2 = { s with
            tasks := l1 ++ ⟨t.item, TaskPc.sending (getRowDataForEvidence (w.fetchEnv i) t.item).rowData
              (getRowDataForEvidence (w.fetchEnv i) t.item).err⟩ :: l2,
            fetches := s.fetches ++ [(i, t.item)],
            calls := s.calls ++
              (getRowDataForEvidence (w.fetchEnv i) t.item).calls.map (fun c => (i, c)) }) ∨
       (∃ r e, t.pc = TaskPc.sending r (some e) ∧ s.errorCh.length < s.cap ∧
          s2 = { s with errorCh := s.errorCh ++ [e],
                        tasks := l1 ++ ⟨t.item, TaskPc.finishing r (some e)⟩ :: l2 }) ∨
       (∃ l, t.pc = TaskPc.sending (Slice.mk l) none ∧ s.evidenceCh.length < s.cap ∧
          s2 = { s with evidenceCh := s.evidenceCh ++ [Slice.mk l],
                        tasks := l1 ++ ⟨t.item, TaskPc.finishing (Slice.mk l) none⟩ :: l2 }) ∨
       (t.pc = TaskPc.sending Slice.nil none ∧
          s2 = { s with tasks := l1 ++ ⟨t.item, TaskPc.finishing Slice.nil none⟩ :: l2 }) ∨
       (∃ r e, t.pc = TaskPc.finishing r e ∧ 0 < s.wg ∧
          s2 = { s with wg := s.wg - 1,
                        tasks := l1 ++ ⟨t.item, TaskPc.done r e⟩ :: l2 })) := by
  unfold getRowDataForEvidenceAsync at h
  cases ht : s.tasks[i]? with
  | none => simp [ht] at h
  | some t =>
    obtain ⟨l1, l2, hl, hlen⟩ := getElem?_split s.tasks i t ht
    refine ⟨l1, l2, t, hl, hlen, ?_⟩
    have hset : ∀ b, s.tasks.set i b = l1 ++ b :: l2 := by
      intro b; rw [hl, ← hlen]; exact set_split l1 l2 t b
    simp only [ht, hset] at h
    cases hpc : t.pc with
    | fetching =>
      simp only [hpc, Option.some.injEq] at h
      exact Or.inl ⟨rfl, h.symm⟩
    | sending r e =>
      simp only [hpc] at h
      cases e with
      | some e =>
        simp only at h
        split at h
        · next hlt =>
          simp only [Option.some.injEq] at h
          exact Or.inr (Or.inl ⟨r, e, rfl, hlt, h.symm⟩)
        · simp at h
      | none =>
        cases r with
        | mk l =>
          simp only at h
          split at h
          · next hlt =>
            simp only [Option.some.injEq] at h
            exact Or.inr (Or.inr (Or.inl ⟨l, rfl, hlt, h.symm⟩))
          · simp at h
        | nil =>
          simp only [Option.some.injEq] at h
          exact Or.inr (Or.inr (Or.inr (Or.inl ⟨rfl, h.symm⟩)))
    | finishing r e =>
      simp only [hpc] at h
      split at h
      · next hlt =>
        simp only [Option.some.injEq] at h
        exact Or.inr (Or.inr (Or.inr (Or.inr ⟨r, e, rfl, hlt, h.symm⟩)))
      · simp at h
    | done r e => simp [hpc] at h

theorem perm_gather_keep {β : Type} (g : Nat → Task → List β) (l1 l2 : List Task)
    (t t2 : Task) (ch : List β) (h : List.Perm ch (gather g 0 (l1 ++ t :: l2)))
    (hg : g l1.length t2 = g l1.length t) :
    List.Perm ch (gather g 0 (l1 ++ t2 :: l2)) := by
  have := perm_gather_set g l1 l2 t t2 ch [] h (by simp [hg])
  simpa using this

theorem inv_listAuditManagerEvidencesStep (w : World) (s s2 : State) (hi : Inv w s) (h : listAuditManagerEvidencesStep s = some s2) :
    Inv w s2 := by
  unfold listAuditManagerEvidencesStep at h
  cases hpc : s.pc with
  | spawning rest =>
    cases rest with
    | cons item rest =>
      simp only [hpc, Option.some.injEq] at h
      subst h
      have hnr : s.pc.isReturned = false := by simp [hpc, MainPc.isReturned]
      constructor
      · exact hi.cap
      · exact hi.err
      · simpa [hpc, MainPc.rest] using hi.items
      · simp [hi.wg, List.countP_append, Task.isDone]
      · rw [TasksOK_append]; exact ⟨hi.ok, by simp [TasksOK, taskOK]⟩
      · simp [MainPc.isSpawning]
      · intro _; rw [gather_append]; simpa [gather, errOf] using hi.errCh hnr
      · intro _; rw [gather_append]; simpa [gather, evOf] using hi.evCh hnr
      · intro _; exact hi.quiet hnr
      · rw [gather_append]; simpa [gather, fetchOf] using hi.fetches
      · rw [gather_append]; simpa [gather, callOf] using hi.calls
      · intro r hr; simp at hr
    | nil =>
      simp only [hpc] at h
      split at h
      · next hwg =>
        simp only [Option.some.injEq] at h
        subst h
        have hnr : s.pc.isReturned = false := by simp [hpc, MainPc.isReturned]
        constructor
        · exact hi.cap
        · exact hi.err
        · simpa [hpc, MainPc.rest] using hi.items
        · exact hi.wg
        · exact hi.ok
        · intro _ t ht
          have h0 := hi.wg
          rw [hwg] at h0
          have := (List.countP_eq_zero.mp h0.symm) t ht
          simpa using this
        · intro _; exact hi.errCh hnr
        · intro _; exact hi.evCh hnr
        · intro _; exact hi.quiet hnr
        · exact hi.fetches
        · exact hi.calls
        · intro r hr; simp at hr
      · simp at h
  | joined =>
    have hnr : s.pc.isReturned = false := by simp [hpc, MainPc.isReturned]
    have hns : s.pc.isSpawning = false := by simp [hpc, MainPc.isSpawning]
    simp only [hpc] at h
    cases hE : s.errorCh with
    | cons e E2 =>
      simp only [hE, Option.some.injEq] at h
      subst h
      constructor
      · exact hi.cap
      · exact hi.err
      · simpa [hpc, MainPc.rest] using hi.items
      · exact hi.wg
      · exact hi.ok
      · intro _; exact hi.alldone hns
      · intro h; simp [MainPc.isReturned] at h
      · intro h; simp [MainPc.isReturned] at h
      · intro h; simp [MainPc.isReturned] at h
      · exact hi.fetches
      · exact hi.calls
      · intro r hr
        simp only [MainPc.returned.injEq] at hr
        refine ⟨s.errorCh, s.evidenceCh, hi.errCh hnr, hi.evCh hnr, Or.inl ⟨e, E2, hE, hr.symm, ?_⟩⟩
        exact hi.quiet hnr
    | nil =>
      simp only [hE, Option.some.injEq] at h
      subst h
      constructor
      · exact hi.cap
      · exact hi.err
      · simpa [hpc, MainPc.rest] using hi.items
      · exact hi.wg
      · exact hi.ok
      · intro _; exact hi.alldone hns
      · intro h; simp [MainPc.isReturned] at h
      · intro h; simp [MainPc.isReturned] at h
      · intro h; simp [MainPc.isReturned] at h
      · exact hi.fetches
      · exact hi.calls
      · intro r hr
        simp only [MainPc.returned.injEq] at hr
        refine ⟨s.errorCh, s.evidenceCh, hi.errCh hnr, hi.evCh hnr, Or.inr ⟨hE, hr.symm, ?_⟩⟩
        simp [hi.quiet hnr]
  | returned r => simp [hpc] at h

/-- A goroutine that has not returned exists only while the caller is in the
loop or at `wg.Wait()`. -/
theorem spawning_of_active (w : World) (s : State) (hi : Inv w s) (t : Task)
    (ht : t ∈ s.tasks) (hd : t.isDone = false) : s.pc.isSpawning = true := by
  by_contra hc
  have := hi.alldone (by simpa using hc) t ht
  simp [hd] at this

theorem inv_getRowDataForEvidenceAsync (w : World) (s s2 : State) (i : Nat) (hi : Inv w s)
    (h : getRowDataForEvidenceAsync w s i = some s2) : Inv w s2 := by
  obtain ⟨l1, l2, t, hl, hlen, hc⟩ := getRowDataForEvidenceAsync_cases w s s2 i h
  subst hlen
  have hmem : t ∈ s.tasks := by simp [hl]
  have hitems := hi.items
  have hwg := hi.wg
  have hok := hi.ok
  have hfe := hi.fetches
  have hca := hi.calls
  rw [hl] at hitems hwg hok hfe hca
  rw [TasksOK_append] at hok
  simp only [TasksOK, Nat.zero_add] at hok
  have key : t.isDone = false →
      s.pc.isSpawning = true ∧ s.pc.isReturned = false ∧
        List.Perm s.errorCh (gather errOf 0 (l1 ++ t :: l2)) ∧
        List.Perm s.evidenceCh (gather evOf 0 (l1 ++ t :: l2)) ∧ s.streamed = [] := by
    intro hd
    have hsp := spawning_of_active w s hi t hmem hd
    have hnr : s.pc.isReturned = false := by
      cases hp : s.pc <;> simp [hp, MainPc.isSpawning, MainPc.isReturned] at hsp ⊢
    refine ⟨hsp, hnr, ?_, ?_, hi.quiet hnr⟩
    · have := hi.errCh hnr; rwa [hl] at this
    · have := hi.evCh hnr; rwa [hl] at this
  rcases hc with ⟨hpc, rfl⟩ | ⟨r, e, hpc, _, rfl⟩ | ⟨l, hpc, _, rfl⟩ | ⟨hpc, rfl⟩ |
    ⟨r, oe, hpc, hpos, rfl⟩
  all_goals try cases r
  all_goals try cases oe
  all_goals
    obtain ⟨hsp, hnr, hE, hV, hq⟩ := key (by simp [Task.isDone, hpc])
    constructor
    · exact hi.cap
    · exact hi.err
    · simpa using hitems
    · simp [List.countP_append, List.countP_cons, Task.isDone, hpc] at hwg ⊢
      omega
    · rw [TasksOK_append]
      simp only [TasksOK, Nat.zero_add]
      refine ⟨hok.1, ?_, hok.2.2⟩
      have h5 := hok.2.1
      first
        | exact (by simpa only [taskOK, hpc] using h5)
        | simp [taskOK]
    · intro hc; simp [hsp] at hc
    · intro _
      first
        | exact perm_gather_set errOf l1 l2 t _ _ _ hE (by simp [errOf, hpc])
        | exact perm_gather_keep errOf l1 l2 t _ _ hE (by simp [errOf, hpc])
    · intro _
      first
        | exact perm_gather_set evOf l1 l2 t _ _ _ hV (by simp [evOf, hpc])
        | exact perm_gather_keep evOf l1 l2 t _ _ hV (by simp [evOf, hpc])
    · intro _; exact hq
    · first
        | exact perm_gather_set fetchOf l1 l2 t _ _ _ hfe (by simp [fetchOf, hpc])
        | exact perm_gather_keep fetchOf l1 l2 t _ _ hfe (by simp [fetchOf, hpc])
    · first
        | exact perm_gather_set (callOf w) l1 l2 t _ _ _ hca (by simp [callOf, hpc])
        | exact perm_gather_keep (callOf w) l1 l2 t _ _ hca (by simp [callOf, hpc])
    · intro r0 hr
      have : s.pc.isReturned = true := by
        simp only at hr
        simp [hr, MainPc.isReturned]
      simp [hnr] at this

theorem inv_step (w : World) (s s2 : State) (tid : Nat) (hi : Inv w s)
    (h : step w s tid = some s2) : Inv w s2 := by
  cases tid with
  | zero => exact inv_listAuditManagerEvidencesStep w s s2 hi h
  | succ i => exact inv_getRowDataForEvidenceAsync w s s2 i hi h

theorem inv_exec (w : World) (sched : List Nat) (s s2 : State) (hi : Inv w s)
    (h : exec w sched s = some s2) : Inv w s2 := by
  induction sched generalizing s with
  | nil =>
    simp only [exec, Option.some.injEq] at h
    subst h; exact hi
  | cons tid rest ih =>
    simp only [exec] at h
    cases hs : step w s tid with
    | none => simp [hs] at h
    | some s1 =>
      rw [hs] at h
      exact ih s1 (inv_step w s s1 tid hi hs) h

/-- Every state of a run whose caller-side service creation succeeded satisfies
the invariant. -/
theorem inv_reach (w : World) (sched : List Nat) (s : State)
    (hsvc : w.AuditManagerService = none) (h : exec w sched (init w) = some s) : Inv w s :=
  inv_exec w sched (init w) s (inv_init w hsvc) h

/-! ## Termination measure -/

theorem measure_step (w : World) (s s2 : State) (tid : Nat) (h : step w s tid = some s2) :
    measure s2 + 1 = measure s := by
  cases tid with
  | zero =>
    simp only [step] at h
    unfold listAuditManagerEvidencesStep at h
    cases hpc : s.pc with
    | spawning rest =>
      cases rest with
      | cons item rest =>
        simp only [hpc, Option.some.injEq] at h
        subst h
        simp [measure, mainRank, hpc, taskRank]
        omega
      | nil =>
        simp only [hpc] at h
        split at h
        · simp only [Option.some.injEq] at h
          subst h
          simp [measure, mainRank, hpc]
          omega
        · simp at h
    | joined =>
      simp only [hpc] at h
      cases hE : s.errorCh with
      | cons e E2 =>
        simp only [hE, Option.some.injEq] at h
        subst h
        simp [measure, mainRank, hpc]
        omega
      | nil =>
        simp only [hE, Option.some.injEq] at h
        subst h
        simp [measure, mainRank, hpc]
        omega
    | returned r => simp [hpc] at h
  | succ i =>
    simp only [step] at h
    obtain ⟨l1, l2, t, hl, _, hc⟩ := getRowDataForEvidenceAsync_cases w s s2 i h
    rcases hc with ⟨hpc, rfl⟩ | ⟨r, e, hpc, _, rfl⟩ | ⟨l, hpc, _, rfl⟩ | ⟨hpc, rfl⟩ |
      ⟨r, oe, hpc, _, rfl⟩
    all_goals
      simp [measure, hl, taskRank, hpc]
      try omega

theorem measure_exec (w : World) (sched : List Nat) (s s2 : State)
    (h : exec w sched s = some s2) : measure s2 + sched.length = measure s := by
  induction sched generalizing s with
  | nil =>
    simp only [exec, Option.some.injEq] at h
    subst h; simp
  | cons tid rest ih =>
    simp only [exec] at h
    cases hs : step w s tid with
    | none => simp [hs] at h
    | some s1 =>
      rw [hs] at h
      have h1 := ih s1 h
      have h2 := measure_step w s s1 tid hs
      simp only [List.length_cons]
      omega

theorem measure_init (w : World) (hsvc : w.AuditManagerService = none) :
    measure (init w) = 4 * (listFolders w).1.length + 2 := by
  simp [measure, init, hsvc, mainRank]

/-! ## No send blocks, no goroutine gets stuck -/

theorem gather_length_le {β : Type} (g : Nat → Task → List β) (ts : List Task) (k : Nat)
    (hg : ∀ k t, (g k t).length ≤ if t.pastSend = true then 1 else 0) :
    (gather g k ts).length ≤ ts.countP Task.pastSend := by
  induction ts generalizing k with
  | nil => simp [gather]
  | cons t ts ih =>
    have h1 := hg k t
    have h2 := ih (k + 1)
    simp only [gather, List.length_append, List.countP_cons]
    omega

theorem errOf_length (k : Nat) (t : Task) :
    (errOf k t).length ≤ if t.pastSend = true then 1 else 0 := by
  unfold errOf Task.pastSend
  cases t.pc with
  | fetching => simp
  | sending r e => simp
  | finishing r e => cases e <;> simp
  | done r e => cases e <;> simp

theorem evOf_length (k : Nat) (t : Task) :
    (evOf k t).length ≤ if t.pastSend = true then 1 else 0 := by
  unfold evOf Task.pastSend
  cases t.pc with
  | fetching => simp
  | sending r e => simp
  | finishing r e => cases e <;> cases r <;> simp
  | done r e => cases e <;> cases r <;> simp

theorem countP_lt_of_split (p : Task → Bool) (l1 l2 : List Task) (t : Task)
    (h : p t = false) : (l1 ++ t :: l2).countP p < (l1 ++ t :: l2).length := by
  have h1 : l1.countP p ≤ l1.length := List.countP_le_length (p := p)
  have h2 : l2.countP p ≤ l2.length := List.countP_le_length (p := p)
  simp [List.countP_append, List.countP_cons, h]
  omega

theorem tasks_length_le (w : World) (s : State) (hi : Inv w s) :
    s.tasks.length ≤ s.cap := by
  have h := congrArg List.length hi.items
  simp only [List.length_append, List.length_map] at h
  rw [hi.cap]
  omega

/-- While some goroutine is still before its push, both channels hold fewer
messages than their capacity. -/
theorem room_of_sending (w : World) (s : State) (hi : Inv w s) (l1 l2 : List Task) (t : Task)
    (hl : s.tasks = l1 ++ t :: l2) (hp : t.pastSend = false) :
    s.errorCh.length < s.cap ∧ s.evidenceCh.length < s.cap := by
  have hd : t.isDone = false := by
    unfold Task.pastSend at hp
    unfold Task.isDone
    cases h : t.pc <;> simp [h] at hp ⊢
  have hsp := spawning_of_active w s hi t (by simp [hl]) hd
  have hnr : s.pc.isReturned = false := by
    cases hq : s.pc <;> simp [hq, MainPc.isSpawning, MainPc.isReturned] at hsp ⊢
  have hlt : s.tasks.countP Task.pastSend < s.tasks.length := by
    rw [hl]; exact countP_lt_of_split _ l1 l2 t hp
  have hcap := tasks_length_le w s hi
  have hE := (hi.errCh hnr).length_eq
  have hV := (hi.evCh hnr).length_eq
  have hE2 := gather_length_le errOf s.tasks 0 errOf_length
  have hV2 := gather_length_le evOf s.tasks 0 evOf_length
  omega

/-- A goroutine that has not returned can always take its next step. -/
theorem task_enabled (w : World) (s : State) (hi : Inv w s) (i : Nat) (t : Task)
    (ht : s.tasks[i]? = some t) (hd : t.isDone = false) : (getRowDataForEvidenceAsync w s i).isSome = true := by
  obtain ⟨l1, l2, hl, _⟩ := getElem?_split s.tasks i t ht
  unfold getRowDataForEvidenceAsync
  simp only [ht]
  cases hpc : t.pc with
  | fetching => simp
  | sending r e =>
    have hroom := room_of_sending w s hi l1 l2 t hl (by simp [Task.pastSend, hpc])
    cases e with
    | some e => simp [hroom.1]
    | none =>
      cases r with
      | mk l => simp [hroom.2]
      | nil => simp
  | finishing r e =>
    have hpos : 0 < s.wg := by
      rw [hi.wg, List.countP_pos_iff]
      exact ⟨t, by simp [hl], by simp [hd]⟩
    simp [hpos]
  | done r e => simp [Task.isDone, hpc] at hd

theorem main_enabled (w : World) (s : State) (h : (listAuditManagerEvidencesStep s).isSome = true) :
    ∃ tid s2, step w s tid = some s2 := by
  obtain ⟨s2, hs2⟩ := Option.isSome_iff_exists.mp h
  exact ⟨0, s2, by simpa [step] using hs2⟩

/-- Some thread can step as long as the function has not returned. -/
theorem progress (w : World) (s : State) (hi : Inv w s) (hnr : s.pc.isReturned = false) :
    ∃ tid s2, step w s tid = some s2 := by
  cases hpc : s.pc with
  | spawning rest =>
    cases rest with
    | cons item rest => exact main_enabled w s (by simp [listAuditManagerEvidencesStep, hpc])
    | nil =>
      by_cases hwg : s.wg = 0
      · exact main_enabled w s (by simp [listAuditManagerEvidencesStep, hpc, hwg])
      · have hpos : 0 < s.tasks.countP (fun t => !t.isDone) := by
          rw [← hi.wg]; omega
        rw [List.countP_pos_iff] at hpos
        obtain ⟨t, hmem, hnd⟩ := hpos
        obtain ⟨i, hi2⟩ := List.getElem?_of_mem hmem
        have hen := task_enabled w s hi i t hi2 (by simpa using hnd)
        obtain ⟨s2, hs2⟩ := Option.isSome_iff_exists.mp hen
        exact ⟨i + 1, s2, by simpa [step] using hs2⟩
  | joined =>
    cases hE : s.errorCh with
    | cons e E2 => exact main_enabled w s (by simp [listAuditManagerEvidencesStep, hpc, hE])
    | nil => exact main_enabled w s (by simp [listAuditManagerEvidencesStep, hpc, hE])
  | returned r => simp [hpc, MainPc.isReturned] at hnr

/-- Every run can be continued until the function returns. -/
theorem completes (w : World) (n : Nat) (s : State) (hi : Inv w s) (hn : measure s = n) :
    ∃ sched s2 r, exec w sched s = some s2 ∧ s2.pc = MainPc.returned r := by
  induction n generalizing s with
  | zero =>
    cases hpc : s.pc with
    | spawning rest => simp [measure, mainRank, hpc] at hn
    | joined => simp [measure, mainRank, hpc] at hn
    | returned r => exact ⟨[], s, r, rfl, hpc⟩
  | succ n ih =>
    by_cases hr : s.pc.isReturned = true
    · cases hpc : s.pc with
      | spawning rest => simp [hpc, MainPc.isReturned] at hr
      | joined => simp [hpc, MainPc.isReturned] at hr
      | returned r => exact ⟨[], s, r, rfl, hpc⟩
    · obtain ⟨tid, s1, hs1⟩ := progress w s hi (by simpa using hr)
      have hm := measure_step w s s1 tid hs1
      obtain ⟨sched, s2, r, he, hp⟩ := ih s1 (inv_step w s s1 tid hi hs1) (by omega)
      exact ⟨tid :: sched, s2, r, by simp [exec, hs1, he], hp⟩

/-! ## The state once every goroutine has returned -/

theorem gather_errOf_done (w : World) (ts : List Task) (k : Nat) (hok : TasksOK w k ts)
    (hd : ∀ t ∈ ts, t.isDone = true) :
    gather errOf k ts = errorsOf (results w k (ts.map Task.item)) := by
  induction ts generalizing k with
  | nil => simp [gather, results, errorsOf]
  | cons t ts ih =>
    have h1 := hd t (by simp)
    have h2 := ih (k + 1) hok.2 (fun t ht => hd t (by simp [ht]))
    have h3 := hok.1
    simp only [gather, List.map_cons, results, errorsOf, h2]
    congr 1
    unfold Task.isDone at h1
    unfold taskOK at h3
    unfold errOf
    cases hpc : t.pc with
    | fetching => simp [hpc] at h1
    | sending r e => simp [hpc] at h1
    | finishing r e => simp [hpc] at h1
    | done r e =>
      simp only [hpc] at h3
      rw [← h3.2]
      cases e <;> simp

theorem gather_evOf_done (w : World) (ts : List Task) (k : Nat) (hok : TasksOK w k ts)
    (hd : ∀ t ∈ ts, t.isDone = true) :
    gather evOf k ts = batchesOf (results w k (ts.map Task.item)) := by
  induction ts generalizing k with
  | nil => simp [gather, results, batchesOf]
  | cons t ts ih =>
    have h1 := hd t (by simp)
    have h2 := ih (k + 1) hok.2 (fun t ht => hd t (by simp [ht]))
    have h3 := hok.1
    simp only [gather, List.map_cons, results, batchesOf, h2]
    congr 1
    unfold Task.isDone at h1
    unfold taskOK at h3
    unfold evOf
    cases hpc : t.pc with
    | fetching => simp [hpc] at h1
    | sending r e => simp [hpc] at h1
    | finishing r e => simp [hpc] at h1
    | done r e =>
      simp only [hpc] at h3
      rw [← h3.2, ← h3.1]
      cases e <;> cases r <;> simp

theorem gather_fetchOf_done (ts : List Task) (k : Nat)
    (hd : ∀ t ∈ ts, t.isDone = true) :
    gather fetchOf k ts = indexed k (ts.map Task.item) := by
  induction ts generalizing k with
  | nil => simp [gather, indexed]
  | cons t ts ih =>
    have h1 := hd t (by simp)
    have h2 := ih (k + 1) (fun t ht => hd t (by simp [ht]))
    simp only [gather, List.map_cons, indexed, h2]
    unfold Task.isDone at h1
    unfold fetchOf
    cases hpc : t.pc <;> simp [hpc] at h1 ⊢

theorem gather_callOf_done (w : World) (ts : List Task) (k : Nat)
    (hd : ∀ t ∈ ts, t.isDone = true) :
    gather (callOf w) k ts = requestsOf k (results w k (ts.map Task.item)) := by
  induction ts generalizing k with
  | nil => simp [gather, results, requestsOf]
  | cons t ts ih =>
    have h1 := hd t (by simp)
    have h2 := ih (k + 1) (fun t ht => hd t (by simp [ht]))
    simp only [gather, List.map_cons, results, requestsOf, h2]
    unfold Task.isDone at h1
    unfold callOf
    cases hpc : t.pc <;> simp [hpc] at h1 ⊢

/-- Past `wg.Wait()` one goroutine per folder has been spawned and has returned,
and the bookkeeping is that of the complete list of fetch results. -/
theorem settled (w : World) (s : State) (hi : Inv w s) (hns : s.pc.isSpawning = false) :
    s.tasks.map Task.item = (listFolders w).1 ∧
    (∀ t ∈ s.tasks, t.isDone = true) ∧
    gather errOf 0 s.tasks = errorsOf (results w 0 (listFolders w).1) ∧
    gather evOf 0 s.tasks = batchesOf (results w 0 (listFolders w).1) ∧
    gather fetchOf 0 s.tasks = indexed 0 (listFolders w).1 ∧
    gather (callOf w) 0 s.tasks = requestsOf 0 (results w 0 (listFolders w).1) := by
  have hd := hi.alldone hns
  have hitems : s.tasks.map Task.item = (listFolders w).1 := by
    have h := hi.items
    cases hpc : s.pc with
    | spawning rest => simp [hpc, MainPc.isSpawning] at hns
    | joined => simpa [hpc, MainPc.rest] using h
    | returned r => simpa [hpc, MainPc.rest] using h
  refine ⟨hitems, hd, ?_, ?_, ?_, ?_⟩
  · rw [gather_errOf_done w s.tasks 0 hi.ok hd, hitems]
  · rw [gather_evOf_done w s.tasks 0 hi.ok hd, hitems]
  · rw [gather_fetchOf_done s.tasks 0 hd, hitems]
  · rw [gather_callOf_done w s.tasks 0 hd, hitems]

/-- The outcome of a returned run, in terms of the fetch results. -/
theorem returned_spec (w : World) (s : State) (r : Option Error) (hi : Inv w s)
    (hpc : s.pc = MainPc.returned r) :
    ∃ E V, List.Perm E (errorsOf (results w 0 (listFolders w).1)) ∧
      List.Perm V (batchesOf (results w 0 (listFolders w).1)) ∧
      ((∃ e E2, E = e :: E2 ∧ r = some e ∧ s.streamed = []) ∨
        (E = [] ∧ r = (listFolders w).2 ∧ s.streamed = streamAll V)) := by
  obtain ⟨E, V, hE, hV, hc⟩ := hi.ret r hpc
  obtain ⟨_, _, h1, h2, _, _⟩ := settled w s hi (by simp [hpc, MainPc.isSpawning])
  rw [h1] at hE
  rw [h2] at hV
  rw [hi.err] at hc
  exact ⟨E, V, hE, hV, hc⟩

/-- When the caller-side service creation fails, the only state of the run is
the early return of line 177. -/
theorem exec_svc_error (w : World) (e : Error) (hsvc : w.AuditManagerService = some e)
    (sched : List Nat) (s : State) (h : exec w sched (init w) = some s) :
    sched = [] ∧ s = init w ∧ s.pc = MainPc.returned (some e) ∧ s.streamed = [] := by
  cases sched with
  | nil =>
    simp only [exec, Option.some.injEq] at h
    subst h
    simp [init, hsvc]
  | cons tid rest =>
    exfalso
    simp only [exec] at h
    cases tid with
    | zero => simp [step, listAuditManagerEvidencesStep, init, hsvc] at h
    | succ i => simp [step, getRowDataForEvidenceAsync, init, hsvc] at h

/-! ## Streaming -/

theorem streamAll_cons (b : Slice evidenceInfo) (V : List (Slice evidenceInfo)) :
    streamAll (b :: V) = b.toList ++ streamAll V := by
  simp [streamAll]

theorem streamAll_perm (V V2 : List (Slice evidenceInfo)) (h : List.Perm V V2) :
    List.Perm (streamAll V) (streamAll V2) := by
  induction h with
  | nil => exact List.Perm.refl _
  | cons b _ ih =>
    rw [streamAll_cons, streamAll_cons]
    exact List.Perm.append_left _ ih
  | swap a b l =>
    simp only [streamAll_cons, ← List.append_assoc]
    exact List.Perm.append_right _ List.perm_append_comm
  | trans _ _ ih1 ih2 => exact ih1.trans ih2

theorem streamAll_sublist (V : List (Slice evidenceInfo)) (b : Slice evidenceInfo)
    (h : b ∈ V) : List.Sublist b.toList (streamAll V) := by
  induction V with
  | nil => simp at h
  | cons c V ih =>
    rw [streamAll_cons]
    rcases List.mem_cons.mp h with rfl | h2
    · exact List.sublist_append_left _ _
    · exact (ih h2).trans (List.sublist_append_right _ _)

theorem streamAll_batchesOf (R : List RowData) (h : ∀ x ∈ R, x.err = none) :
    streamAll (batchesOf R) = recordsOf R := by
  induction R with
  | nil => simp [batchesOf, streamAll, recordsOf]
  | cons x R ih =>
    have h1 := h x (by simp)
    have h2 := ih (fun y hy => h y (by simp [hy]))
    simp only [batchesOf, recordsOf, h1]
    cases hr : x.rowData with
    | nil => simp [Slice.toList, h2]
    | mk l => simp [Slice.toList, h2, streamAll_cons]

theorem errorsOf_nil_iff (R : List RowData) :
    errorsOf R = [] ↔ ∀ x ∈ R, x.err = none := by
  induction R with
  | nil => simp [errorsOf]
  | cons x R ih =>
    simp only [errorsOf, List.append_eq_nil, ih, List.mem_cons, forall_eq_or_imp]
    cases x.err <;> simp

theorem mem_errorsOf (R : List RowData) (e : Error) :
    e ∈ errorsOf R ↔ ∃ x ∈ R, x.err = some e := by
  induction R with
  | nil => simp [errorsOf]
  | cons x R ih =>
    simp only [errorsOf, List.mem_append, ih, List.mem_cons, exists_eq_or_imp]
    cases x.err <;> simp [eq_comm]

theorem mem_batchesOf (R : List RowData) (x : RowData) (l : List evidenceInfo)
    (hx : x ∈ R) (he : x.err = none) (hr : x.rowData = Slice.mk l) :
    Slice.mk l ∈ batchesOf R := by
  induction R with
  | nil => simp at hx
  | cons y R ih =>
    simp only [batchesOf, List.mem_append]
    rcases List.mem_cons.mp hx with rfl | h2
    · left; simp [he, hr]
    · right; exact ih h2

theorem recordsOf_length (R : List RowData) :
    (recordsOf R).length = (R.map (fun x => x.rowData.toList.length)).sum := by
  induction R with
  | nil => simp [recordsOf]
  | cons x R ih => simp [recordsOf, ih]

/-! ## The fetch of one folder -/

theorem foldl_append_toList {α : Type} (f : α → evidenceInfo) (es : List α)
    (start : Slice evidenceInfo) :
    (es.foldl (fun (items : Slice evidenceInfo) e => items.append (f e)) start).toList =
      start.toList ++ es.map f := by
  induction es generalizing start with
  | nil => simp
  | cons e es ih =>
    rw [List.foldl_cons, ih]
    simp [Slice.append, Slice.toList]

theorem foldl_append_eq_nil {α : Type} (f : α → evidenceInfo) (es : List α)
    (start : Slice evidenceInfo) :
    es.foldl (fun (items : Slice evidenceInfo) e => items.append (f e)) start = Slice.nil ↔
      start = Slice.nil ∧ es = [] := by
  induction es generalizing start with
  | nil => simp
  | cons e es ih =>
    rw [List.foldl_cons, ih]
    simp [Slice.append]

/-- The slice `getRowDataForEvidence` returns is nil exactly when it holds no
record. -/
theorem rowData_nil_iff (env : Env) (item : AssessmentEvidenceFolder) :
    (getRowDataForEvidence env item).rowData = Slice.nil ↔
      (getRowDataForEvidence env item).rowData.toList = [] := by
  unfold getRowDataForEvidence
  cases env.AuditManagerService with
  | some e => simp [Slice.toList]
  | none =>
    simp only
    cases env.GetEvidenceByEvidenceFolder
        { AssessmentId := item.AssessmentId, ControlSetId := item.ControlSetId,
          EvidenceFolderId := item.Id } with
    | error e => simp [Slice.toList]
    | ok out =>
      simp only
      rw [foldl_append_eq_nil, foldl_append_toList]
      simp [Slice.toList]

theorem mem_results (w : World) (F : List AssessmentEvidenceFolder) (k : Nat) (x : RowData)
    (h : x ∈ results w k F) :
    ∃ i f, F[i]? = some f ∧ x = getRowDataForEvidence (w.fetchEnv (k + i)) f := by
  induction F generalizing k with
  | nil => simp [results] at h
  | cons g F ih =>
    simp only [results, List.mem_cons] at h
    rcases h with rfl | h
    · exact ⟨0, g, by simp, by simp⟩
    · obtain ⟨i, f, h1, h2⟩ := ih (k + 1) h
      exact ⟨i + 1, f, by simpa using h1, by rw [h2]; congr 2; omega⟩

theorem results_length (w : World) (F : List AssessmentEvidenceFolder) (k : Nat) :
    (results w k F).length = F.length := by
  induction F generalizing k with
  | nil => simp [results]
  | cons g F ih => simp [results, ih]

/-- Every fetch accounts for one message on one channel, unless it succeeded
with a nil slice. -/
theorem pushes_count (R : List RowData) :
    (errorsOf R).length + (batchesOf R).length +
        R.countP (fun x => x.err.isNone && decide (x.rowData = Slice.nil)) = R.length := by
  induction R with
  | nil => simp [errorsOf, batchesOf]
  | cons x R ih =>
    simp only [errorsOf, batchesOf, List.length_append, List.countP_cons, List.length_cons]
    cases he : x.err <;> cases hr : x.rowData <;> simp <;> omega

theorem mem_batchesOf_iff (R : List RowData) (b : Slice evidenceInfo) :
    b ∈ batchesOf R ↔ ∃ x ∈ R, x.err = none ∧ x.rowData = b ∧ b ≠ Slice.nil := by
  induction R with
  | nil => simp [batchesOf]
  | cons x R ih =>
    simp only [batchesOf, List.mem_append, ih, List.mem_cons, exists_eq_or_imp]
    cases he : x.err <;> cases hr : x.rowData <;> simp
    · intro h1 h2
      exact absurd h1.symm h2
    · constructor
      · rintro (h | h)
        · left; subst h; simp
        · right; exact h
      · rintro (h | h)
        · left; exact h.1.symm
        · right; exact h

theorem results_nil_iff (w : World) (F : List AssessmentEvidenceFolder) (k : Nat)
    (x : RowData) (h : x ∈ results w k F) :
    x.rowData = Slice.nil ↔ x.rowData.toList = [] := by
  obtain ⟨i, f, _, rfl⟩ := mem_results w F k x h
  exact rowData_nil_iff _ _

/-! ## The log of fetches -/

theorem indexed_append {α : Type} (A B : List α) (k : Nat) :
    indexed k (A ++ B) = indexed k A ++ indexed (k + A.length) B := by
  induction A generalizing k with
  | nil => simp [indexed]
  | cons a A ih =>
    have e : k + 1 + A.length = k + (A.length + 1) := by omega
    simp [indexed, ih, e]

theorem indexed_map_fst {α : Type} (F : List α) (k : Nat) :
    (indexed k F).map Prod.fst = List.range' k F.length := by
  induction F generalizing k with
  | nil => simp [indexed]
  | cons a F ih => simp [indexed, ih, List.range']

theorem indexed_length {α : Type} (F : List α) (k : Nat) :
    (indexed k F).length = F.length := by
  induction F generalizing k with
  | nil => simp [indexed]
  | cons a F ih => simp [indexed, ih]

theorem mem_indexed {α : Type} (F : List α) (k i : Nat) (a : α)
    (h : (i, a) ∈ indexed k F) : ∃ j, i = k + j ∧ F[j]? = some a := by
  induction F generalizing k with
  | nil => simp [indexed] at h
  | cons b F ih =>
    simp only [indexed, List.mem_cons, Prod.mk.injEq] at h
    rcases h with ⟨h1, h2⟩ | h
    · exact ⟨0, by omega, by simp [h2]⟩
    · obtain ⟨j, hj, hf⟩ := ih (k + 1) h
      exact ⟨j + 1, by omega, by simpa using hf⟩

theorem gather_fetchOf_sublist (ts : List Task) (k : Nat) :
    List.Sublist (gather fetchOf k ts) (indexed k (ts.map Task.item)) := by
  induction ts generalizing k with
  | nil => simp [gather, indexed]
  | cons t ts ih =>
    simp only [gather, List.map_cons, indexed]
    unfold fetchOf
    cases t.pc with
    | fetching => exact List.Sublist.cons _ (ih (k + 1))
    | sending r e => exact List.Sublist.cons₂ _ (ih (k + 1))
    | finishing r e => exact List.Sublist.cons₂ _ (ih (k + 1))
    | done r e => exact List.Sublist.cons₂ _ (ih (k + 1))

/-- At every moment the fetches made so far are distinct entries of the list of
folders paired with their position. -/
theorem fetches_subperm (w : World) (s : State) (hi : Inv w s) :
    List.Subperm s.fetches (indexed 0 (listFolders w).1) := by
  have h1 : List.Sublist (gather fetchOf 0 s.tasks) (indexed 0 (listFolders w).1) := by
    rw [← hi.items, indexed_append]
    exact (gather_fetchOf_sublist s.tasks 0).trans (List.sublist_append_left _ _)
  exact hi.fetches.subperm.trans h1.subperm

theorem err_ev_length (ts : List Task) (k : Nat) :
    (gather errOf k ts).length + (gather evOf k ts).length ≤ ts.length := by
  induction ts generalizing k with
  | nil => simp [gather]
  | cons t ts ih =>
    have h := ih (k + 1)
    have h1 : (errOf k t).length + (evOf k t).length ≤ 1 := by
      unfold errOf evOf
      cases t.pc with
      | fetching => simp
      | sending r e => simp
      | finishing r e => cases e <;> cases r <;> simp
      | done r e => cases e <;> cases r <;> simp
    simp only [gather, List.length_append, List.length_cons]
    omega

theorem exec_append (w : World) (a b : List Nat) (s : State) :
    exec w (a ++ b) s = (exec w a s).bind (exec w b) := by
  induction a generalizing s with
  | nil => simp [exec]
  | cons tid a ih =>
    simp only [List.cons_append, exec]
    cases step w s tid with
    | none => simp
    | some s1 => simp [ih]

theorem mem_rowData (env : Env) (item : AssessmentEvidenceFolder) (x : evidenceInfo)
    (h : x ∈ (getRowDataForEvidence env item).rowData.toList) :
    ∃ out e, env.AuditManagerService = none ∧
      env.GetEvidenceByEvidenceFolder
          { AssessmentId := item.AssessmentId, ControlSetId := item.ControlSetId,
            EvidenceFolderId := item.Id } = Except.ok out ∧
      e ∈ out.Evidence ∧ x = ⟨e, item.AssessmentId, item.ControlSetId⟩ := by
  unfold getRowDataForEvidence at h
  cases hsvc : env.AuditManagerService with
  | some e => simp [hsvc, Slice.toList] at h
  | none =>
    simp only [hsvc] at h
    cases hcall : env.GetEvidenceByEvidenceFolder
        { AssessmentId := item.AssessmentId, ControlSetId := item.ControlSetId,
          EvidenceFolderId := item.Id } with
    | error e => simp [hcall, Slice.toList] at h
    | ok out =>
      simp only [hcall] at h
      rw [foldl_append_toList] at h
      simp only [Slice.toList, List.nil_append, List.mem_map] at h
      obtain ⟨e, he, hx⟩ := h
      exact ⟨out, e, rfl, rfl, he, hx.symm⟩

theorem mem_recordsOf (R : List RowData) (x : evidenceInfo) :
    x ∈ recordsOf R ↔ ∃ r ∈ R, x ∈ r.rowData.toList := by
  induction R with
  | nil => simp [recordsOf]
  | cons r R ih => simp [recordsOf, ih]

theorem mem_streamAll (V : List (Slice evidenceInfo)) (x : evidenceInfo) :
    x ∈ streamAll V ↔ ∃ b ∈ V, x ∈ b.toList := by
  induction V with
  | nil => simp [streamAll]
  | cons b V ih => simp [streamAll_cons, ih]

/-! ## The claims -/

/-- C1: when the folder enumeration succeeded and every per-folder fetch
succeeds, a run returns, and every run that returns, whatever the schedule, has
streamed exactly as many records as the batch sizes add up to, the streamed
records are a permutation of the concatenation of all batches, each batch
appears in its own order, and the returned error is nil. -/
theorem C1_all_fetches_succeed (w : World) (hsvc : w.AuditManagerService = none)
    (henum : (listFolders w).2 = none)
    (hok : ∀ x ∈ results w 0 (listFolders w).1, x.err = none) :
    (∃ sched s, listAuditManagerEvidences w sched = some s ∧ s.pc = MainPc.returned none) ∧
    ∀ sched s r, listAuditManagerEvidences w sched = some s → s.pc = MainPc.returned r →
      s.streamed.length =
          ((results w 0 (listFolders w).1).map (fun x => x.rowData.toList.length)).sum ∧
        List.Perm s.streamed (recordsOf (results w 0 (listFolders w).1)) ∧
        (∀ x ∈ results w 0 (listFolders w).1, List.Sublist x.rowData.toList s.streamed) ∧
        r = none := by
  have main : ∀ sched s r, listAuditManagerEvidences w sched = some s → s.pc = MainPc.returned r →
      s.streamed.length =
          ((results w 0 (listFolders w).1).map (fun x => x.rowData.toList.length)).sum ∧
        List.Perm s.streamed (recordsOf (results w 0 (listFolders w).1)) ∧
        (∀ x ∈ results w 0 (listFolders w).1, List.Sublist x.rowData.toList s.streamed) ∧
        r = none := by
    intro sched s r hrun hret
    have hi := inv_reach w sched s hsvc hrun
    obtain ⟨E, V, hE, hV, hc⟩ := returned_spec w s r hi hret
    have hnil : errorsOf (results w 0 (listFolders w).1) = [] :=
      (errorsOf_nil_iff _).mpr hok
    rw [hnil] at hE
    have hE0 : E = [] := List.Perm.eq_nil hE
    rcases hc with ⟨e, E2, h1, _, _⟩ | ⟨_, hr, hs⟩
    · rw [hE0] at h1; simp at h1
    · have hperm : List.Perm s.streamed (recordsOf (results w 0 (listFolders w).1)) := by
        rw [hs, ← streamAll_batchesOf _ hok]
        exact streamAll_perm V _ hV
      refine ⟨?_, hperm, ?_, ?_⟩
      · rw [hperm.length_eq, recordsOf_length]
      · intro x hx
        cases hrd : x.rowData with
        | nil => simp [Slice.toList]
        | mk l =>
          have hmem := mem_batchesOf _ x l hx (hok x hx) hrd
          have hmemV : Slice.mk l ∈ V := hV.mem_iff.mpr hmem
          rw [hs]
          exact streamAll_sublist V (Slice.mk l) hmemV
      · rw [hr, henum]
  refine ⟨?_, main⟩
  obtain ⟨sched, s, r, he, hp⟩ := completes w (measure (init w)) (init w) (inv_init w hsvc) rfl
  have := (main sched s r he hp).2.2.2
  subst this
  exact ⟨sched, s, he, hp⟩

/-- Witness of C1 at `worldOk`. -/
theorem C1_all_fetches_succeed_witness :
    (∃ sched s, listAuditManagerEvidences worldOk sched = some s ∧
      s.pc = MainPc.returned none) ∧
    returnedOk.streamed.length =
      ((results worldOk 0 (listFolders worldOk).1).map
        (fun x => x.rowData.toList.length)).sum ∧
    List.Perm returnedOk.streamed (recordsOf (results worldOk 0 (listFolders worldOk).1)) ∧
    (∀ x ∈ results worldOk 0 (listFolders worldOk).1,
      List.Sublist x.rowData.toList returnedOk.streamed) ∧
    (none : Option Error) = none :=
  ⟨(C1_all_fetches_succeed worldOk rfl rfl (by decide)).1,
    (C1_all_fetches_succeed worldOk rfl rfl (by decide)).2 [0, 0, 2, 1, 2, 1, 1, 2, 0, 0]
      returnedOk none (by decide) rfl⟩

/-- C2: when at least one per-folder fetch returns an error, a run returns, no
state of any run has a streamed record, and every run that returns, whatever
the schedule, returns a non-nil error that is the error of one of the failing
fetches. -/
theorem C2_failing_fetch_wins (w : World) (hsvc : w.AuditManagerService = none)
    (hfail : ∃ x ∈ results w 0 (listFolders w).1, x.err ≠ none) :
    (∃ sched s r, listAuditManagerEvidences w sched = some s ∧ s.pc = MainPc.returned r) ∧
    ∀ sched s, listAuditManagerEvidences w sched = some s →
      s.streamed = [] ∧
        ∀ r, s.pc = MainPc.returned r →
          ∃ e, r = some e ∧ ∃ x ∈ results w 0 (listFolders w).1, x.err = some e := by
  refine ⟨completes w (measure (init w)) (init w) (inv_init w hsvc) rfl, ?_⟩
  intro sched s hrun
  have hi := inv_reach w sched s hsvc hrun
  have hret : ∀ r, s.pc = MainPc.returned r →
      s.streamed = [] ∧
        ∃ e, r = some e ∧ ∃ x ∈ results w 0 (listFolders w).1, x.err = some e := by
    intro r hpc
    obtain ⟨E, V, hE, _, hc⟩ := returned_spec w s r hi hpc
    rcases hc with ⟨e, E2, h1, hr, hs⟩ | ⟨h1, _, _⟩
    · refine ⟨hs, e, hr, ?_⟩
      have : e ∈ errorsOf (results w 0 (listFolders w).1) :=
        hE.mem_iff.mp (by simp [h1])
      exact (mem_errorsOf _ e).mp this
    · exfalso
      rw [h1] at hE
      have hnil := List.Perm.nil_eq hE
      obtain ⟨x, hx, hne⟩ := hfail
      exact hne ((errorsOf_nil_iff _).mp hnil.symm x hx)
  refine ⟨?_, fun r hpc => (hret r hpc).2⟩
  cases hpc : s.pc with
  | spawning rest => exact hi.quiet (by simp [hpc, MainPc.isReturned])
  | joined => exact hi.quiet (by simp [hpc, MainPc.isReturned])
  | returned r => exact (hret r hpc).1

/-- Witness of C2 at `worldDenied`. -/
theorem C2_failing_fetch_wins_witness :
    (∃ sched s r, listAuditManagerEvidences worldDenied sched = some s ∧
      s.pc = MainPc.returned r) ∧
    returnedDenied.streamed = [] ∧
    ∃ e, some (Error.mk "AccessDeniedException") = some e ∧
      ∃ x ∈ results worldDenied 0 (listFolders worldDenied).1, x.err = some e :=
  ⟨(C2_failing_fetch_wins worldDenied rfl
      ⟨getRowDataForEvidence envDenied folderB, by decide, by decide⟩).1,
    ((C2_failing_fetch_wins worldDenied rfl
      ⟨getRowDataForEvidence envDenied folderB, by decide, by decide⟩).2
        [0, 0, 1, 1, 1, 2, 2, 2, 0, 0] returnedDenied (by decide)).1,
    ((C2_failing_fetch_wins worldDenied rfl
      ⟨getRowDataForEvidence envDenied folderB, by decide, by decide⟩).2
        [0, 0, 1, 1, 1, 2, 2, 2, 0, 0] returnedDenied (by decide)).2
        (some ⟨"AccessDeniedException"⟩) rfl⟩

/-- C3, counterexample: the folder listing delivers `folder-a` and then fails;
the run returns the listing error after the two records of `folder-a` have
been streamed. -/
theorem C3_counterexample :
    (listAuditManagerEvidences worldPartial [0, 1, 1, 1, 0, 0]).map
        (fun s => (s.pc, s.streamed)) =
      some (MainPc.returned (some ⟨"ThrottlingException"⟩),
        [⟨sampleEvidence "ev-1", some "assessment-1", some "control-set-1"⟩,
         ⟨sampleEvidence "ev-2", some "assessment-1", some "control-set-1"⟩]) := by
  decide

/-- C3, amended: every run that returns has either streamed nothing and returns
the error of the caller-side service creation or of a failing fetch, or every
fetch succeeded, all records of the listed folders have been streamed and the
returned error is the one of the folder listing (nil when the listing
succeeded). -/
theorem C3_error_or_all_records (w : World) (sched : List Nat) (s : State)
    (r : Option Error) (hrun : listAuditManagerEvidences w sched = some s)
    (hret : s.pc = MainPc.returned r) :
    (s.streamed = [] ∧ ∃ e, r = some e ∧
        (w.AuditManagerService = some e ∨
          ∃ x ∈ results w 0 (listFolders w).1, x.err = some e)) ∨
    (w.AuditManagerService = none ∧
      (∀ x ∈ results w 0 (listFolders w).1, x.err = none) ∧
      List.Perm s.streamed (recordsOf (results w 0 (listFolders w).1)) ∧
      r = (listFolders w).2) := by
  cases hsvc : w.AuditManagerService with
  | some e =>
    obtain ⟨_, _, hpc, hs⟩ := exec_svc_error w e hsvc sched s hrun
    rw [hret] at hpc
    simp only [MainPc.returned.injEq] at hpc
    exact Or.inl ⟨hs, e, hpc, Or.inl rfl⟩
  | none =>
    have hi := inv_reach w sched s hsvc hrun
    obtain ⟨E, V, hE, hV, hc⟩ := returned_spec w s r hi hret
    rcases hc with ⟨e, E2, h1, hr, hs⟩ | ⟨h1, hr, hs⟩
    · have : e ∈ errorsOf (results w 0 (listFolders w).1) :=
        hE.mem_iff.mp (by simp [h1])
      exact Or.inl ⟨hs, e, hr, Or.inr ((mem_errorsOf _ e).mp this)⟩
    · rw [h1] at hE
      have hok := (errorsOf_nil_iff _).mp (List.Perm.nil_eq hE).symm
      refine Or.inr ⟨rfl, hok, ?_, hr⟩
      rw [hs, ← streamAll_batchesOf _ hok]
      exact streamAll_perm V _ hV

/-- Witness of the amended C3 at `worldDenied`. -/
theorem C3_error_or_all_records_witness :
    (([] : List evidenceInfo) = [] ∧ ∃ e, some (Error.mk "AccessDeniedException") = some e ∧
        (worldDenied.AuditManagerService = some e ∨
          ∃ x ∈ results worldDenied 0 (listFolders worldDenied).1, x.err = some e)) ∨
    (worldDenied.AuditManagerService = none ∧
      (∀ x ∈ results worldDenied 0 (listFolders worldDenied).1, x.err = none) ∧
      List.Perm [] (recordsOf (results worldDenied 0 (listFolders worldDenied).1)) ∧
      some (Error.mk "AccessDeniedException") = (listFolders worldDenied).2) :=
  C3_error_or_all_records worldDenied [0, 0, 1, 1, 1, 2, 2, 2, 0, 0]
    { pc := MainPc.returned (some ⟨"AccessDeniedException"⟩)
      tasks := [⟨folderA, TaskPc.done (getRowDataForEvidence envOk folderA).rowData none⟩,
        ⟨folderB, TaskPc.done Slice.nil (some ⟨"AccessDeniedException"⟩)⟩]
      wg := 0, cap := 2
      evidenceCh := [(getRowDataForEvidence envOk folderA).rowData]
      errorCh := [], err := none, streamed := []
      fetches := [(0, folderA), (1, folderB)]
      calls := [(0, ⟨some "assessment-1", some "control-set-1", some "folder-a"⟩),
        (1, ⟨some "assessment-1", some "control-set-2", some "folder-b"⟩)] }
    (some ⟨"AccessDeniedException"⟩) (by decide) rfl

/-- C4, counterexample: the fetch of the only folder succeeds with no evidence;
its goroutine runs to completion and neither channel holds a message. -/
theorem C4_counterexample :
    (getRowDataForEvidence envOk folderB).err = none ∧
    (listAuditManagerEvidences worldEmptyBatch [0, 1, 1, 1]).map
        (fun s => (s.tasks.map Task.isDone, s.errorCh, s.evidenceCh)) =
      some ([true], [], []) := by
  decide

/-- C4, amended: once `wg.Wait()` has returned, `errorCh` holds exactly the
errors of the failing fetches and `evidenceCh` exactly the non-empty batches of
the successful ones, so each goroutine has pushed at most once, to one channel:
its error when the fetch failed, its batch when the fetch succeeded with at
least one record, and nothing when the fetch succeeded with no record. -/
theorem C4_one_push_unless_empty (w : World) (sched : List Nat) (s : State)
    (hsvc : w.AuditManagerService = none) (hrun : listAuditManagerEvidences w sched = some s)
    (hj : s.pc = MainPc.joined) :
    List.Perm s.errorCh (errorsOf (results w 0 (listFolders w).1)) ∧
    List.Perm s.evidenceCh (batchesOf (results w 0 (listFolders w).1)) ∧
    (∀ e, e ∈ s.errorCh ↔ ∃ x ∈ results w 0 (listFolders w).1, x.err = some e) ∧
    (∀ b, b ∈ s.evidenceCh ↔
      ∃ x ∈ results w 0 (listFolders w).1, x.err = none ∧ x.rowData = b ∧ b.toList ≠ []) ∧
    s.errorCh.length + s.evidenceCh.length +
        (results w 0 (listFolders w).1).countP
          (fun x => x.err.isNone && x.rowData.toList.isEmpty) =
      (listFolders w).1.length := by
  have hi := inv_reach w sched s hsvc hrun
  have hnr : s.pc.isReturned = false := by simp [hj, MainPc.isReturned]
  obtain ⟨_, _, h1, h2, _, _⟩ := settled w s hi (by simp [hj, MainPc.isSpawning])
  have hE := hi.errCh hnr
  have hV := hi.evCh hnr
  rw [h1] at hE
  rw [h2] at hV
  refine ⟨hE, hV, ?_, ?_, ?_⟩
  · intro e
    rw [hE.mem_iff]
    exact mem_errorsOf _ e
  · intro b
    rw [hV.mem_iff, mem_batchesOf_iff]
    constructor
    · rintro ⟨x, hx, he, hr, hb⟩
      refine ⟨x, hx, he, hr, ?_⟩
      intro hnil
      apply hb
      rw [← hr] at hnil ⊢
      exact (results_nil_iff w _ 0 x hx).mpr hnil
    · rintro ⟨x, hx, he, hr, hb⟩
      refine ⟨x, hx, he, hr, ?_⟩
      intro hnil
      apply hb
      rw [hnil]
      rfl
  · have hc := pushes_count (results w 0 (listFolders w).1)
    rw [results_length] at hc
    have hcongr : (results w 0 (listFolders w).1).countP
          (fun x => x.err.isNone && x.rowData.toList.isEmpty) =
        (results w 0 (listFolders w).1).countP
          (fun x => x.err.isNone && decide (x.rowData = Slice.nil)) := by
      apply List.countP_congr
      intro x hx
      have := results_nil_iff w _ 0 x hx
      simp only [Bool.and_eq_true, List.isEmpty_iff, decide_eq_true_eq, this]
    rw [hE.length_eq, hV.length_eq, hcongr]
    exact hc

/-- Witness of the amended C4 at `worldDenied`. -/
theorem C4_one_push_unless_empty_witness :
    List.Perm [Error.mk "AccessDeniedException"]
      (errorsOf (results worldDenied 0 (listFolders worldDenied).1)) ∧
    List.Perm [(getRowDataForEvidence envOk folderA).rowData]
      (batchesOf (results worldDenied 0 (listFolders worldDenied).1)) ∧
    (∀ e, e ∈ [Error.mk "AccessDeniedException"] ↔
      ∃ x ∈ results worldDenied 0 (listFolders worldDenied).1, x.err = some e) ∧
    (∀ b, b ∈ [(getRowDataForEvidence envOk folderA).rowData] ↔
      ∃ x ∈ results worldDenied 0 (listFolders worldDenied).1,
        x.err = none ∧ x.rowData = b ∧ b.toList ≠ []) ∧
    [Error.mk "AccessDeniedException"].length +
        [(getRowDataForEvidence envOk folderA).rowData].length +
        (results worldDenied 0 (listFolders worldDenied).1).countP
          (fun x => x.err.isNone && x.rowData.toList.isEmpty) =
      (listFolders worldDenied).1.length :=
  C4_one_push_unless_empty worldDenied [0, 0, 1, 1, 1, 2, 2, 2, 0]
    { pc := MainPc.joined
      tasks := [⟨folderA, TaskPc.done (getRowDataForEvidence envOk folderA).rowData none⟩,
        ⟨folderB, TaskPc.done Slice.nil (some ⟨"AccessDeniedException"⟩)⟩]
      wg := 0, cap := 2
      evidenceCh := [(getRowDataForEvidence envOk folderA).rowData]
      errorCh := [⟨"AccessDeniedException"⟩], err := none, streamed := []
      fetches := [(0, folderA), (1, folderB)]
      calls := [(0, ⟨some "assessment-1", some "control-set-1", some "folder-a"⟩),
        (1, ⟨some "assessment-1", some "control-set-2", some "folder-b"⟩)] }
    rfl (by decide) rfl

/-- C5: in every state of a run the goroutines spawned so far are, in order, one
per folder visited by the loop, each invocation of `getRowDataForEvidence` was
made by a distinct goroutine with the folder at its own position, and once
`wg.Wait()` has returned there are exactly N goroutines and the invocations are
exactly the N folders, each once, whatever the fetches returned. -/
theorem C5_one_fetch_per_folder (w : World) (sched : List Nat) (s : State)
    (hsvc : w.AuditManagerService = none) (hrun : listAuditManagerEvidences w sched = some s) :
    s.tasks.map Task.item ++ s.pc.rest = (listFolders w).1 ∧
    (s.fetches.map Prod.fst).Nodup ∧
    (∀ i f, (i, f) ∈ s.fetches → (listFolders w).1[i]? = some f) ∧
    (s.pc.isSpawning = false →
      s.tasks.length = (listFolders w).1.length ∧
        List.Perm s.fetches (indexed 0 (listFolders w).1)) := by
  have hi := inv_reach w sched s hsvc hrun
  have hsub := fetches_subperm w s hi
  refine ⟨hi.items, ?_, ?_, ?_⟩
  · obtain ⟨l, hperm, hsl⟩ := hsub
    have h1 : (l.map Prod.fst).Nodup := by
      apply List.Nodup.sublist (hsl.map Prod.fst)
      rw [indexed_map_fst]
      exact List.nodup_range' 0 _
    exact (hperm.map Prod.fst).nodup_iff.mp h1
  · intro i f hmem
    obtain ⟨j, hj, hf⟩ := mem_indexed _ 0 i f (hsub.subset hmem)
    have : i = j := by omega
    subst this
    exact hf
  · intro hns
    obtain ⟨h1, _, _, _, h5, _⟩ := settled w s hi hns
    refine ⟨?_, ?_⟩
    · rw [← h1, List.length_map]
    · rw [← h5]; exact hi.fetches

/-- Witness of C5 at `worldDenied`, after the failing fetch. -/
theorem C5_one_fetch_per_folder_witness :
    [folderA, folderB] ++ MainPc.rest (MainPc.returned (some ⟨"AccessDeniedException"⟩)) =
      (listFolders worldDenied).1 ∧
    (([(1, folderB), (0, folderA)] : List (Nat × AssessmentEvidenceFolder)).map
      Prod.fst).Nodup ∧
    (∀ i f, (i, f) ∈ ([(1, folderB), (0, folderA)] : List (Nat × AssessmentEvidenceFolder)) →
      (listFolders worldDenied).1[i]? = some f) ∧
    (MainPc.isSpawning (MainPc.returned (some ⟨"AccessDeniedException"⟩)) = false →
      [folderA, folderB].length = (listFolders worldDenied).1.length ∧
        List.Perm [(1, folderB), (0, folderA)] (indexed 0 (listFolders worldDenied).1)) :=
  C5_one_fetch_per_folder worldDenied [0, 0, 2, 1, 1, 1, 2, 2, 0, 0]
    { pc := MainPc.returned (some ⟨"AccessDeniedException"⟩)
      tasks := [⟨folderA, TaskPc.done (getRowDataForEvidence envOk folderA).rowData none⟩,
        ⟨folderB, TaskPc.done Slice.nil (some ⟨"AccessDeniedException"⟩)⟩]
      wg := 0, cap := 2
      evidenceCh := [(getRowDataForEvidence envOk folderA).rowData]
      errorCh := [], err := none, streamed := []
      fetches := [(1, folderB), (0, folderA)]
      calls := [(1, ⟨some "assessment-1", some "control-set-2", some "folder-b"⟩),
        (0, ⟨some "assessment-1", some "control-set-1", some "folder-a"⟩)] }
    rfl (by decide)

/-- C6: when the folder enumeration succeeds with no folder, the run of two
caller steps returns the nil error, and no state of any run has a goroutine, a
fetch, a request or a streamed record. -/
theorem C6_no_folders (w : World) (hsvc : w.AuditManagerService = none)
    (h0 : listFolders w = ([], none)) :
    (listAuditManagerEvidences w [0, 0]).map (fun s => s.pc) = some (MainPc.returned none) ∧
    ∀ sched s, listAuditManagerEvidences w sched = some s →
      s.tasks = [] ∧ s.fetches = [] ∧ s.calls = [] ∧ s.streamed = [] ∧
        ∀ r, s.pc = MainPc.returned r → r = none := by
  refine ⟨by simp [listAuditManagerEvidences, exec, step, listAuditManagerEvidencesStep, init, hsvc, h0], ?_⟩
  intro sched s hrun
  have hi := inv_reach w sched s hsvc hrun
  have ht : s.tasks = [] := by
    have h := hi.items
    rw [h0] at h
    simpa using (List.append_eq_nil.mp h).1
  have hf := hi.fetches
  have hc := hi.calls
  rw [ht] at hf hc
  simp only [gather] at hf hc
  have hret : ∀ r, s.pc = MainPc.returned r → s.streamed = [] ∧ r = none := by
    intro r hpc
    obtain ⟨E, V, hE, hV, hcase⟩ := returned_spec w s r hi hpc
    rw [h0] at hE hV hcase
    simp only [results, errorsOf, batchesOf] at hE hV
    have hE0 := List.Perm.eq_nil hE
    have hV0 := List.Perm.eq_nil hV
    rcases hcase with ⟨e, E2, h1, _, _⟩ | ⟨_, hr, hs⟩
    · rw [hE0] at h1; simp at h1
    · exact ⟨by rw [hs, hV0]; rfl, hr⟩
  refine ⟨ht, List.Perm.eq_nil hf, List.Perm.eq_nil hc, ?_, fun r hpc => (hret r hpc).2⟩
  cases hpc : s.pc with
  | spawning rest => exact hi.quiet (by simp [hpc, MainPc.isReturned])
  | joined => exact hi.quiet (by simp [hpc, MainPc.isReturned])
  | returned r => exact (hret r hpc).1

/-- Witness of C6 at `worldNone`. -/
theorem C6_no_folders_witness :
    (listAuditManagerEvidences worldNone [0, 0]).map (fun s => s.pc) =
      some (MainPc.returned none) ∧
    returnedNone.tasks = [] ∧ returnedNone.fetches = [] ∧ returnedNone.calls = [] ∧
      returnedNone.streamed = [] ∧
      ∀ r, returnedNone.pc = MainPc.returned r → r = none :=
  ⟨(C6_no_folders worldNone rfl (by decide)).1,
    (C6_no_folders worldNone rfl (by decide)).2 [0, 0] returnedNone (by decide)⟩

/-- C7: in every state in which `wg.Wait()` has returned (the channels are read
only from there on, and the function returns only from there), one goroutine
per folder has been spawned, every one of them has returned, the wait-group
counter is zero and N fetches have been made, whatever they returned. -/
theorem C7_waits_for_all (w : World) (sched : List Nat) (s : State)
    (hsvc : w.AuditManagerService = none) (hrun : listAuditManagerEvidences w sched = some s)
    (hpast : s.pc.isSpawning = false) :
    s.tasks.length = (listFolders w).1.length ∧
    (∀ t ∈ s.tasks, t.isDone = true) ∧
    s.tasks.countP Task.isDone = (listFolders w).1.length ∧
    s.fetches.length = (listFolders w).1.length ∧
    s.wg = 0 := by
  have hi := inv_reach w sched s hsvc hrun
  obtain ⟨h1, h2, _, _, h5, _⟩ := settled w s hi hpast
  have hlen : s.tasks.length = (listFolders w).1.length := by
    rw [← h1, List.length_map]
  refine ⟨hlen, h2, ?_, ?_, ?_⟩
  · rw [← hlen, List.countP_eq_length]
    exact h2
  · rw [hi.fetches.length_eq, h5, indexed_length]
  · rw [hi.wg, List.countP_eq_zero]
    intro t ht
    simp [h2 t ht]

/-- Witness of C7 at `worldDenied`, when `wg.Wait()` has just returned. -/
theorem C7_waits_for_all_witness :
    ([⟨folderA, TaskPc.done (getRowDataForEvidence envOk folderA).rowData none⟩,
        ⟨folderB, TaskPc.done Slice.nil (some ⟨"AccessDeniedException"⟩)⟩] :
          List Task).length = (listFolders worldDenied).1.length ∧
    (∀ t ∈ ([⟨folderA, TaskPc.done (getRowDataForEvidence envOk folderA).rowData none⟩,
        ⟨folderB, TaskPc.done Slice.nil (some ⟨"AccessDeniedException"⟩)⟩] : List Task),
      t.isDone = true) ∧
    ([⟨folderA, TaskPc.done (getRowDataForEvidence envOk folderA).rowData none⟩,
        ⟨folderB, TaskPc.done Slice.nil (some ⟨"AccessDeniedException"⟩)⟩] :
          List Task).countP Task.isDone = (listFolders worldDenied).1.length ∧
    ([(0, folderA), (1, folderB)] : List (Nat × AssessmentEvidenceFolder)).length =
      (listFolders worldDenied).1.length ∧
    (0 : Nat) = 0 :=
  C7_waits_for_all worldDenied [0, 0, 1, 2, 1, 2, 2, 1, 0]
    { pc := MainPc.joined
      tasks := [⟨folderA, TaskPc.done (getRowDataForEvidence envOk folderA).rowData none⟩,
        ⟨folderB, TaskPc.done Slice.nil (some ⟨"AccessDeniedException"⟩)⟩]
      wg := 0, cap := 2
      evidenceCh := [(getRowDataForEvidence envOk folderA).rowData]
      errorCh := [⟨"AccessDeniedException"⟩], err := none, streamed := []
      fetches := [(0, folderA), (1, folderB)]
      calls := [(0, ⟨some "assessment-1", some "control-set-1", some "folder-a"⟩),
        (1, ⟨some "assessment-1", some "control-set-2", some "folder-b"⟩)] }
    rfl (by decide) rfl

/-- C8: in every state of a run both channels have the capacity N they were
created with, hold together at most one message per spawned goroutine (so
neither holds more than N), every goroutine that has not returned can take its
next step (no push blocks), the run has taken exactly `4 * N + 2` steps minus
the steps still to take, and it can be continued until the function returns. -/
theorem C8_no_send_blocks (w : World) (sched : List Nat) (s : State)
    (hsvc : w.AuditManagerService = none) (hrun : listAuditManagerEvidences w sched = some s) :
    s.cap = (listFolders w).1.length ∧
    (s.pc.isReturned = false →
      s.errorCh.length + s.evidenceCh.length ≤ s.tasks.length ∧
        s.errorCh.length ≤ s.cap ∧ s.evidenceCh.length ≤ s.cap) ∧
    (∀ i t, s.tasks[i]? = some t → t.isDone = false → (step w s (i + 1)).isSome = true) ∧
    sched.length + measure s = 4 * (listFolders w).1.length + 2 ∧
    ∃ sched2 s2 r, listAuditManagerEvidences w (sched ++ sched2) = some s2 ∧
      s2.pc = MainPc.returned r := by
  have hi := inv_reach w sched s hsvc hrun
  refine ⟨hi.cap, ?_, ?_, ?_, ?_⟩
  · intro hnr
    have hE := (hi.errCh hnr).length_eq
    have hV := (hi.evCh hnr).length_eq
    have h1 := err_ev_length s.tasks 0
    have h2 := tasks_length_le w s hi
    omega
  · intro i t ht hd
    exact task_enabled w s hi i t ht hd
  · have h1 := measure_exec w sched (init w) s hrun
    have h2 := measure_init w hsvc
    omega
  · obtain ⟨sched2, s2, r, he, hp⟩ := completes w (measure s) s hi rfl
    refine ⟨sched2, s2, r, ?_, hp⟩
    have hrun2 : exec w sched (init w) = some s := hrun
    show exec w (sched ++ sched2) (init w) = some s2
    rw [exec_append, hrun2]
    exact he

/-- Witness of C8 at `worldDenied`, with one goroutine about to push. -/
theorem C8_no_send_blocks_witness :
    (2 : Nat) = (listFolders worldDenied).1.length ∧
    (MainPc.isReturned (MainPc.spawning []) = false →
      ([] : List Error).length + ([] : List (Slice evidenceInfo)).length ≤
          ([⟨folderA, TaskPc.fetching⟩,
            ⟨folderB, TaskPc.sending Slice.nil (some ⟨"AccessDeniedException"⟩)⟩] :
              List Task).length ∧
        ([] : List Error).length ≤ 2 ∧ ([] : List (Slice evidenceInfo)).length ≤ 2) ∧
    (∀ i t,
      ([⟨folderA, TaskPc.fetching⟩,
        ⟨folderB, TaskPc.sending Slice.nil (some ⟨"AccessDeniedException"⟩)⟩] :
          List Task)[i]? = some t →
      t.isDone = false →
      (step worldDenied
        { pc := MainPc.spawning []
          tasks := [⟨folderA, TaskPc.fetching⟩,
            ⟨folderB, TaskPc.sending Slice.nil (some ⟨"AccessDeniedException"⟩)⟩]
          wg := 2, cap := 2, evidenceCh := [], errorCh := [], err := none, streamed := []
          fetches := [(1, folderB)]
          calls := [(1, ⟨some "assessment-1", some "control-set-2", some "folder-b"⟩)] }
        (i + 1)).isSome = true) ∧
    [0, 0, 2].length +
        measure
          { pc := MainPc.spawning []
            tasks := [⟨folderA, TaskPc.fetching⟩,
              ⟨folderB, TaskPc.sending Slice.nil (some ⟨"AccessDeniedException"⟩)⟩]
            wg := 2, cap := 2, evidenceCh := [], errorCh := [], err := none, streamed := []
            fetches := [(1, folderB)]
            calls := [(1, ⟨some "assessment-1", some "control-set-2", some "folder-b"⟩)] } =
      4 * (listFolders worldDenied).1.length + 2 ∧
    ∃ sched2 s2 r, listAuditManagerEvidences worldDenied ([0, 0, 2] ++ sched2) = some s2 ∧
      s2.pc = MainPc.returned r :=
  C8_no_send_blocks worldDenied [0, 0, 2]
    { pc := MainPc.spawning []
      tasks := [⟨folderA, TaskPc.fetching⟩,
        ⟨folderB, TaskPc.sending Slice.nil (some ⟨"AccessDeniedException"⟩)⟩]
      wg := 2, cap := 2, evidenceCh := [], errorCh := [], err := none, streamed := []
      fetches := [(1, folderB)]
      calls := [(1, ⟨some "assessment-1", some "control-set-2", some "folder-b"⟩)] }
    rfl (by decide)

/-- C9: for a folder whose service is created and whose
`GetEvidenceByEvidenceFolder` call answers the evidence list `e1..ek`,
`getRowDataForEvidence` returns no error and exactly the k records
`(ei, AssessmentId, ControlSetId)` of the folder, in order; and every record
streamed in any state of any run is such a record of one of the listed
folders. -/
theorem C9_records_keep_parent_ids (w : World) :
    (∀ (env : Env) (item : AssessmentEvidenceFolder) (out : GetEvidenceByEvidenceFolderOutput),
      env.AuditManagerService = none →
      env.GetEvidenceByEvidenceFolder
          { AssessmentId := item.AssessmentId, ControlSetId := item.ControlSetId,
            EvidenceFolderId := item.Id } = Except.ok out →
      (getRowDataForEvidence env item).err = none ∧
        (getRowDataForEvidence env item).rowData.toList =
          out.Evidence.map (fun e => ⟨e, item.AssessmentId, item.ControlSetId⟩)) ∧
    (∀ sched s, listAuditManagerEvidences w sched = some s →
      ∀ x ∈ s.streamed, ∃ i f out e,
        (listFolders w).1[i]? = some f ∧
          (w.fetchEnv i).GetEvidenceByEvidenceFolder
              { AssessmentId := f.AssessmentId, ControlSetId := f.ControlSetId,
                EvidenceFolderId := f.Id } = Except.ok out ∧
          e ∈ out.Evidence ∧ x = ⟨e, f.AssessmentId, f.ControlSetId⟩) := by
  constructor
  · intro env item out hsvc hcall
    unfold getRowDataForEvidence
    simp only [hsvc, hcall]
    rw [foldl_append_toList]
    simp [Slice.toList]
  · intro sched s hrun x hx
    cases hsvc : w.AuditManagerService with
    | some e =>
      obtain ⟨_, _, _, hs⟩ := exec_svc_error w e hsvc sched s hrun
      rw [hs] at hx
      simp at hx
    | none =>
      have hi := inv_reach w sched s hsvc hrun
      cases hpc : s.pc with
      | spawning rest =>
        rw [hi.quiet (by simp [hpc, MainPc.isReturned])] at hx
        simp at hx
      | joined =>
        rw [hi.quiet (by simp [hpc, MainPc.isReturned])] at hx
        simp at hx
      | returned r =>
        obtain ⟨E, V, _, hV, hc⟩ := returned_spec w s r hi hpc
        rcases hc with ⟨_, _, _, _, hs⟩ | ⟨_, _, hs⟩
        · rw [hs] at hx
          simp at hx
        · rw [hs, mem_streamAll] at hx
          obtain ⟨b, hb, hxb⟩ := hx
          obtain ⟨y, hy, _, hyb, _⟩ := (mem_batchesOf_iff _ b).mp (hV.mem_iff.mp hb)
          obtain ⟨i, f, hf, rfl⟩ := mem_results w _ 0 y hy
          rw [← hyb] at hxb
          obtain ⟨out, e, _, hcall, he, hxe⟩ := mem_rowData _ f x hxb
          rw [Nat.zero_add] at hcall
          exact ⟨i, f, out, e, hf, hcall, he, hxe⟩

/-- Witness of C9 at `envOk`, `folder-a` and the run of `worldOk` in which the
goroutines finish in spawn order. -/
theorem C9_records_keep_parent_ids_witness :
    ((getRowDataForEvidence envOk folderA).err = none ∧
      (getRowDataForEvidence envOk folderA).rowData.toList =
        [sampleEvidence "ev-1", sampleEvidence "ev-2"].map
          (fun e => ⟨e, folderA.AssessmentId, folderA.ControlSetId⟩)) ∧
    ∀ x ∈ (getRowDataForEvidence envOk folderA).rowData.toList, ∃ i f out e,
      (listFolders worldOk).1[i]? = some f ∧
        (worldOk.fetchEnv i).GetEvidenceByEvidenceFolder
            { AssessmentId := f.AssessmentId, ControlSetId := f.ControlSetId,
              EvidenceFolderId := f.Id } = Except.ok out ∧
        e ∈ out.Evidence ∧ x = ⟨e, f.AssessmentId, f.ControlSetId⟩ :=
  ⟨(C9_records_keep_parent_ids worldOk).1 envOk folderA
      ⟨[sampleEvidence "ev-1", sampleEvidence "ev-2"]⟩ rfl rfl,
    (C9_records_keep_parent_ids worldOk).2 [0, 0, 1, 1, 1, 2, 2, 2, 0, 0]
      { pc := MainPc.returned none
        tasks := [⟨folderA, TaskPc.done (getRowDataForEvidence envOk folderA).rowData none⟩,
          ⟨folderB, TaskPc.done Slice.nil none⟩]
        wg := 0, cap := 2, evidenceCh := [], errorCh := [], err := none
        streamed := (getRowDataForEvidence envOk folderA).rowData.toList
        fetches := [(0, folderA), (1, folderB)]
        calls := [(0, ⟨some "assessment-1", some "control-set-1", some "folder-a"⟩),
          (1, ⟨some "assessment-1", some "control-set-2", some "folder-b"⟩)] }
      (by decide)⟩

/-- C10, counterexample: when the service cannot be created,
`getRowDataForEvidence` returns that error without sending any
`GetEvidenceByEvidenceFolder` request. -/
theorem C10_counterexample :
    (getRowDataForEvidence envNoService folderA).calls = [] ∧
    (getRowDataForEvidence envNoService folderA).err =
      some ⟨"region must be passed"⟩ := by
  decide

/-- C10, amended: `getRowDataForEvidence` sends one `GetEvidenceByEvidenceFolder`
request, carrying the folder's AssessmentId, ControlSetId and Id, when the
service is created, and none when creating the service fails; the error it
returns is the error of the service creation if that failed, else the error of
the call if that failed, else nil; and with an error it returns the nil
slice. -/
theorem C10_at_most_one_call (env : Env) (item : AssessmentEvidenceFolder) :
    (getRowDataForEvidence env item).calls =
      (match env.AuditManagerService with
        | some _ => []
        | none => [{ AssessmentId := item.AssessmentId, ControlSetId := item.ControlSetId,
                     EvidenceFolderId := item.Id }]) ∧
    (getRowDataForEvidence env item).err =
      (match env.AuditManagerService with
        | some e => some e
        | none =>
          match env.GetEvidenceByEvidenceFolder
              { AssessmentId := item.AssessmentId, ControlSetId := item.ControlSetId,
                EvidenceFolderId := item.Id } with
          | Except.error e => some e
          | Except.ok _ => none) ∧
    ((getRowDataForEvidence env item).err ≠ none →
      (getRowDataForEvidence env item).rowData = Slice.nil) := by
  unfold getRowDataForEvidence
  cases env.AuditManagerService with
  | some e => simp
  | none =>
    simp only
    cases env.GetEvidenceByEvidenceFolder
        { AssessmentId := item.AssessmentId, ControlSetId := item.ControlSetId,
          EvidenceFolderId := item.Id } with
    | error e => simp
    | ok out => simp

/-- Witness of the amended C10 at a refused call. -/
theorem C10_at_most_one_call_witness :
    (getRowDataForEvidence envDenied folderB).calls =
      [{ AssessmentId := some "assessment-1", ControlSetId := some "control-set-2",
         EvidenceFolderId := some "folder-b" }] ∧
    (getRowDataForEvidence envDenied folderB).err = some ⟨"AccessDeniedException"⟩ ∧
    (getRowDataForEvidence envDenied folderB).rowData = Slice.nil :=
  ⟨(C10_at_most_one_call envDenied folderB).1, (C10_at_most_one_call envDenied folderB).2.1,
    (C10_at_most_one_call envDenied folderB).2.2 (by decide)⟩

/-! ## The first pushed error is the one returned -/

theorem exec_snoc (w : World) (pre : List Nat) (tid : Nat) (s0 s : State)
    (h : exec w (pre ++ [tid]) s0 = some s) :
    ∃ s1, exec w pre s0 = some s1 ∧ step w s1 tid = some s := by
  rw [exec_append] at h
  cases h1 : exec w pre s0 with
  | none => simp [h1] at h
  | some s1 =>
    refine ⟨s1, rfl, ?_⟩
    simp only [h1, Option.some_bind, exec] at h
    cases h2 : step w s1 tid with
    | none => simp [h2] at h
    | some s2 => simpa [h2, exec] using h

theorem pushLog_snoc (w : World) (pre : List Nat) (tid : Nat) (s0 s1 s : State)
    (h1 : exec w pre s0 = some s1) (h2 : step w s1 tid = some s) :
    pushLog w (pre ++ [tid]) s0 = pushLog w pre s0 ++ pushOf s1 tid := by
  induction pre generalizing s0 with
  | nil =>
    simp only [exec, Option.some.injEq] at h1
    subst h1
    simp [pushLog, h2]
  | cons a pre ih =>
    simp only [exec] at h1
    cases ha : step w s0 a with
    | none => simp [ha] at h1
    | some sa =>
      rw [ha] at h1
      simp only [Option.some_bind] at h1
      simp [pushLog, ha, ih sa h1]

theorem TasksOK_getElem (w : World) (ts : List Task) (k i : Nat) (t : Task)
    (hok : TasksOK w k ts) (ht : ts[i]? = some t) : taskOK w (k + i) t := by
  obtain ⟨l1, l2, hl, hlen⟩ := getElem?_split ts i t ht
  rw [hl, TasksOK_append] at hok
  rw [← hlen]
  exact hok.2.1

theorem getElem?_middle {α : Type} (l1 l2 : List α) (a : α) :
    (l1 ++ a :: l2)[l1.length]? = some a := by
  induction l1 with
  | nil => simp
  | cons b l1 ih => simpa using ih

theorem pushOf_caller (s : State) : pushOf s 0 = [] := rfl

/-- A goroutine step appends to `errorCh` exactly what `pushOf` announces. -/
theorem errorCh_step (w : World) (s s2 : State) (i : Nat)
    (h : getRowDataForEvidenceAsync w s i = some s2) :
    s2.errorCh = s.errorCh ++ (pushOf s (i + 1)).map Prod.snd ∧ s2.pc = s.pc ∧
      s2.streamed = s.streamed := by
  obtain ⟨l1, l2, t, hl, hlen, hc⟩ := getRowDataForEvidenceAsync_cases w s s2 i h
  have ht : s.tasks[i]? = some t := by
    rw [hl, ← hlen]; exact getElem?_middle l1 l2 t
  rcases hc with ⟨hpc, rfl⟩ | ⟨r, e, hpc, _, rfl⟩ | ⟨l, hpc, _, rfl⟩ | ⟨hpc, rfl⟩ |
    ⟨r, oe, hpc, _, rfl⟩
  all_goals simp [pushOf, ht, hpc]

theorem spawning_of_task_step (w : World) (s s2 : State) (i : Nat) (hi : Inv w s)
    (h : getRowDataForEvidenceAsync w s i = some s2) : s.pc.isSpawning = true := by
  obtain ⟨l1, l2, t, hl, _, hc⟩ := getRowDataForEvidenceAsync_cases w s s2 i h
  apply spawning_of_active w s hi t (by simp [hl])
  rcases hc with ⟨hpc, _⟩ | ⟨r, e, hpc, _, _⟩ | ⟨l, hpc, _, _⟩ | ⟨hpc, _⟩ |
    ⟨r, oe, hpc, _, _⟩
  all_goals simp [Task.isDone, hpc]

theorem not_returned_of_spawning (pc : MainPc) (h : pc.isSpawning = true) :
    pc.isReturned = false := by
  cases pc <;> simp [MainPc.isSpawning, MainPc.isReturned] at h ⊢

/-- Until the function returns `errorCh` holds the pushed errors in the order of
the pushes; when it returns, it returns the first of them, leaves the others in
the channel and has streamed nothing, or no error was pushed at all. -/
theorem errorCh_log (w : World) (hsvc : w.AuditManagerService = none) (sched : List Nat) :
    ∀ s, exec w sched (init w) = some s →
      (s.pc.isReturned = false → s.errorCh = (pushLog w sched (init w)).map Prod.snd) ∧
      (∀ r, s.pc = MainPc.returned r →
        List.Perm ((pushLog w sched (init w)).map Prod.snd)
            (errorsOf (results w 0 (listFolders w).1)) ∧
          ((pushLog w sched (init w) = [] ∧ r = (listFolders w).2) ∨
            ∃ i e rest, pushLog w sched (init w) = (i, e) :: rest ∧ r = some e ∧
              s.errorCh = rest.map Prod.snd ∧ s.streamed = [])) := by
  induction sched using List.reverseRecOn with
  | nil =>
    intro s h
    simp only [exec, Option.some.injEq] at h
    subst h
    simp [init, hsvc, pushLog]
  | append_singleton pre tid ih =>
    intro s hrun
    obtain ⟨s1, h1, h2⟩ := exec_snoc w pre tid (init w) s hrun
    have ih1 := ih s1 h1
    have hi1 := inv_reach w pre s1 hsvc h1
    rw [pushLog_snoc w pre tid (init w) s1 s h1 h2]
    cases tid with
    | zero =>
      simp only [step] at h2
      rw [pushOf_caller, List.append_nil]
      unfold listAuditManagerEvidencesStep at h2
      cases hpc : s1.pc with
      | spawning rest =>
        have hnr : s1.pc.isReturned = false := by simp [hpc, MainPc.isReturned]
        cases rest with
        | cons item rest =>
          simp only [hpc, Option.some.injEq] at h2
          subst h2
          exact ⟨fun _ => ih1.1 hnr, fun r hr => by simp at hr⟩
        | nil =>
          simp only [hpc] at h2
          split at h2
          · simp only [Option.some.injEq] at h2
            subst h2
            exact ⟨fun _ => ih1.1 hnr, fun r hr => by simp at hr⟩
          · simp at h2
      | joined =>
        have hnr : s1.pc.isReturned = false := by simp [hpc, MainPc.isReturned]
        have hlog := ih1.1 hnr
        obtain ⟨_, _, hset, _, _, _⟩ := settled w s1 hi1 (by simp [hpc, MainPc.isSpawning])
        have hperm : List.Perm ((pushLog w pre (init w)).map Prod.snd)
            (errorsOf (results w 0 (listFolders w).1)) := by
          rw [← hlog, ← hset]
          exact hi1.errCh hnr
        simp only [hpc] at h2
        cases hE : s1.errorCh with
        | cons e E2 =>
          simp only [hE, Option.some.injEq] at h2
          subst h2
          refine ⟨fun h => by simp [MainPc.isReturned] at h, ?_⟩
          intro r hr
          simp only [MainPc.returned.injEq] at hr
          refine ⟨hperm, Or.inr ?_⟩
          rw [hE] at hlog
          cases hL : pushLog w pre (init w) with
          | nil => simp [hL] at hlog
          | cons p rest =>
            rw [hL] at hlog
            simp only [List.map_cons, List.cons.injEq] at hlog
            refine ⟨p.1, p.2, rest, rfl, ?_, hlog.2, hi1.quiet hnr⟩
            rw [← hr, hlog.1]
        | nil =>
          simp only [hE, Option.some.injEq] at h2
          subst h2
          refine ⟨fun h => by simp [MainPc.isReturned] at h, ?_⟩
          intro r hr
          simp only [MainPc.returned.injEq] at hr
          refine ⟨hperm, Or.inl ⟨?_, ?_⟩⟩
          · rw [hE] at hlog
            exact List.map_eq_nil_iff.mp hlog.symm
          · rw [← hr, hi1.err]
      | returned r => simp [hpc] at h2
    | succ i =>
      simp only [step] at h2
      obtain ⟨hE, hP, _⟩ := errorCh_step w s1 s i h2
      have hsp := spawning_of_task_step w s1 s i hi1 h2
      have hnr := not_returned_of_spawning s1.pc hsp
      constructor
      · intro _
        rw [hE, ih1.1 hnr, List.map_append]
      · intro r hr
        rw [hP] at hr
        simp [hr, MainPc.isReturned] at hnr

theorem getElem?_map_append {α β : Type} (f : α → β) (ts : List α) (rest : List β)
    (i : Nat) (t : α) (h : ts[i]? = some t) : (ts.map f ++ rest)[i]? = some (f t) := by
  obtain ⟨l1, l2, hl, hlen⟩ := getElem?_split ts i t h
  subst hl
  have := getElem?_middle (l1.map f) (l2.map f ++ rest) (f t)
  simpa [hlen] using this

/-- Every logged push was made by the goroutine of a listed folder and carries
the error its fetch returned. -/
theorem pushLog_sound (w : World) (hsvc : w.AuditManagerService = none) (sched : List Nat) :
    ∀ s, exec w sched (init w) = some s →
      ∀ i e, (i, e) ∈ pushLog w sched (init w) →
        ∃ f, (listFolders w).1[i]? = some f ∧
          (getRowDataForEvidence (w.fetchEnv i) f).err = some e := by
  induction sched using List.reverseRecOn with
  | nil =>
    intro s _ i e hmem
    simp [pushLog] at hmem
  | append_singleton pre tid ih =>
    intro s hrun i e hmem
    obtain ⟨s1, h1, h2⟩ := exec_snoc w pre tid (init w) s hrun
    have hi1 := inv_reach w pre s1 hsvc h1
    rw [pushLog_snoc w pre tid (init w) s1 s h1 h2, List.mem_append] at hmem
    rcases hmem with hmem | hmem
    · exact ih s1 h1 i e hmem
    · cases tid with
      | zero => simp [pushOf] at hmem
      | succ j =>
        unfold pushOf at hmem
        simp only at hmem
        cases ht : s1.tasks[j]? with
        | none => simp [ht] at hmem
        | some t =>
          simp only [ht] at hmem
          have hok := TasksOK_getElem w s1.tasks 0 j t hi1.ok ht
          rw [Nat.zero_add] at hok
          have hf := getElem?_map_append Task.item s1.tasks s1.pc.rest j t ht
          rw [hi1.items] at hf
          unfold taskOK at hok
          cases hpc : t.pc with
          | fetching => simp [hpc] at hmem
          | finishing r oe => simp [hpc] at hmem
          | done r oe => simp [hpc] at hmem
          | sending r oe =>
            cases oe with
            | none => simp [hpc] at hmem
            | some e2 =>
              simp only [hpc, List.mem_singleton, Prod.mk.injEq] at hmem
              simp only [hpc] at hok
              obtain ⟨rfl, rfl⟩ := hmem
              exact ⟨t.item, hf, hok.2.symm⟩

/-- C11: when at least one fetch fails, every run that returns, whatever the
schedule, returns the error of the first push to `errorCh` in the order in
which the pushes happened; that push was made by the goroutine of a listed
folder with the error its fetch returned; every failing fetch pushed its error;
the later errors stay unread in the channel and no record is streamed. -/
theorem C11_first_pushed_error_wins (w : World) (sched : List Nat) (s : State)
    (r : Option Error) (hsvc : w.AuditManagerService = none)
    (hfail : ∃ x ∈ results w 0 (listFolders w).1, x.err ≠ none)
    (hrun : listAuditManagerEvidences w sched = some s)
    (hret : s.pc = MainPc.returned r) :
    ∃ i e rest f, pushLog w sched (init w) = (i, e) :: rest ∧ r = some e ∧
      (listFolders w).1[i]? = some f ∧
      (getRowDataForEvidence (w.fetchEnv i) f).err = some e ∧
      List.Perm (e :: rest.map Prod.snd) (errorsOf (results w 0 (listFolders w).1)) ∧
      s.errorCh = rest.map Prod.snd ∧ s.streamed = [] := by
  obtain ⟨hperm, hc⟩ := (errorCh_log w hsvc sched s hrun).2 r hret
  rcases hc with ⟨hnil, _⟩ | ⟨i, e, rest, hlog, hr, hch, hs⟩
  · exfalso
    rw [hnil] at hperm
    have h0 := List.Perm.nil_eq hperm
    obtain ⟨x, hx, hne⟩ := hfail
    exact hne ((errorsOf_nil_iff _).mp h0.symm x hx)
  · obtain ⟨f, hf, he⟩ := pushLog_sound w hsvc sched s hrun i e (by simp [hlog])
    rw [hlog] at hperm
    exact ⟨i, e, rest, f, hlog, hr, hf, he, hperm, hch, hs⟩

/-- Witness of C11 at `worldBothFail`: the goroutine of `folder-b` pushes first
and its error is the one returned. -/
theorem C11_first_pushed_error_wins_witness :
    ∃ i e rest f, pushLog worldBothFail [0, 0, 1, 2, 2, 1, 1, 2, 0, 0] (init worldBothFail) =
        (i, e) :: rest ∧
      some (Error.mk "AccessDeniedException") = some e ∧
      (listFolders worldBothFail).1[i]? = some f ∧
      (getRowDataForEvidence (worldBothFail.fetchEnv i) f).err = some e ∧
      List.Perm (e :: rest.map Prod.snd)
        (errorsOf (results worldBothFail 0 (listFolders worldBothFail).1)) ∧
      returnedBothFail.errorCh = rest.map Prod.snd ∧ returnedBothFail.streamed = [] :=
  C11_first_pushed_error_wins worldBothFail [0, 0, 1, 2, 2, 1, 1, 2, 0, 0] returnedBothFail
    (some ⟨"AccessDeniedException"⟩) rfl
    ⟨getRowDataForEvidence envDenied folderB, by decide, by decide⟩ (by decide) rfl

/-! ## The hydrate functions of the other tables -/

/-- C12, the code at the failing input: on a `DescribeSnapshots` response
without error whose `Snapshots` slice is non-nil and empty, `getAwsEBSSnapshot`
passes the nil check of line 192 and the index expression of line 193 panics;
it returns neither a snapshot nor nil. -/
theorem C12_panics_on_empty_snapshots :
    getAwsEBSSnapshot envEmptySnapshots = Hydrated.panic ∧
    envEmptySnapshots.DescribeSnapshots { SnapshotIds := [some "snap-0123"] } =
      Except.ok ⟨Slice.mk []⟩ := by
  constructor <;> rfl

/-- C13: for every granularity `g` the request has `Granularity` `g`, one group
of type DIMENSION with key LINKED_ACCOUNT, and both bounds of `TimePeriod`
formatted with one layout, which is the date-time layout exactly when `g` is
HOURLY and the date-only layout otherwise; `listCostByLinkedAccountMonthly`
hands `streamCostAndUsage` the request for MONTHLY, whose bounds use the
date-only layout. -/
theorem C13_cost_request (env : CostEnv) (g : String) :
    (buildCostByLinkedAccountInput env g).Granularity = some g ∧
    (buildCostByLinkedAccountInput env g).GroupBy =
      [some { Type_ := some "DIMENSION", Key := some "LINKED_ACCOUNT" }] ∧
    (∃ timeFormat : String,
      (timeFormat = "2006-01-02T15:04:05Z" ↔ g = "HOURLY") ∧
      (timeFormat = "2006-01-02" ↔ g ≠ "HOURLY") ∧
      (buildCostByLinkedAccountInput env g).TimePeriod =
        some { Start := some (env.Format (env.getCEStartDateForGranularity g) timeFormat),
               End := some (env.Format env.Now timeFormat) }) ∧
    (∀ (ρ : Type) (streamCostAndUsage : costexplorer.GetCostAndUsageInput → ρ),
      listCostByLinkedAccountMonthly env streamCostAndUsage =
        streamCostAndUsage (buildCostByLinkedAccountInput env "MONTHLY")) ∧
    (buildCostByLinkedAccountInput env "MONTHLY").Granularity = some "MONTHLY" ∧
    (buildCostByLinkedAccountInput env "MONTHLY").TimePeriod =
      some { Start := some (env.Format (env.getCEStartDateForGranularity "MONTHLY") "2006-01-02"),
             End := some (env.Format env.Now "2006-01-02") } := by
  refine ⟨rfl, rfl, ?_, fun _ _ => rfl, rfl, ?_⟩
  · by_cases hg : g = "HOURLY"
    · refine ⟨"2006-01-02T15:04:05Z", by simp [hg], ?_, ?_⟩
      · simp only [hg, ne_eq, not_true_eq_false, iff_false]
        decide
      · simp [buildCostByLinkedAccountInput, hg]
    · refine ⟨"2006-01-02", ?_, by simp [hg], ?_⟩
      · simp only [hg, iff_false]
        decide
      · simp [buildCostByLinkedAccountInput, hg]
  · have hne : ¬ ("MONTHLY" = "HOURLY") := by decide
    simp [buildCostByLinkedAccountInput, hne]

theorem string_append_cancel_left (a x y : String) (h : a ++ x = a ++ y) : x = y := by
  have h2 := congrArg String.data h
  simp only [String.data_append, List.append_cancel_left_eq] at h2
  exact String.ext h2

theorem arn_eq_arnOf (partition region accountId id : String) (mid tail service kind : String)
    (hmid : mid = ":" ++ service ++ ":") (htail : tail = ":" ++ kind ++ "/") :
    "arn:" ++ partition ++ mid ++ region ++ ":" ++ accountId ++ tail ++ id =
      arnOf partition service region accountId kind id := by
  subst hmid htail
  simp only [arnOf, String.append_assoc]

theorem arnOf_injective (partition service region accountId kind id1 id2 : String)
    (h : arnOf partition service region accountId kind id1 =
      arnOf partition service region accountId kind id2) : id1 = id2 := by
  unfold arnOf at h
  exact string_append_cancel_left _ _ _ h

/-- C14: with the common columns available each builder returns, without
error, the ARN spelled `arn:partition:service:region:account:kind/id` with its
own service and kind; two rows of one partition, region and account get the
same ARN only if their resource ids are equal; and when `getCommonColumns`
fails each builder returns that error and no ARN. -/
theorem C14_arn_builders (region : String) (c : awsCommonColumnData) :
    (∀ id folderId a cs,
      getAuditManagerEvidenceARN region (Except.ok c) ⟨some ⟨some id, folderId⟩, a, cs⟩ =
        Hydrated.ret (some (arnOf c.Partition "auditmanager" region c.AccountId "evidence" id))
          none) ∧
    (∀ id vol,
      getEBSSnapshotARN region (Except.ok c) (some ⟨some id, vol⟩) =
        Hydrated.ret (some (arnOf c.Partition "ec2" region c.AccountId "snapshot" id)) none) ∧
    (∀ out id,
      getGuardDutyDetectorARN region (Except.ok c) ⟨out, id⟩ =
        Hydrated.ret (some (arnOf c.Partition "guardduty" region c.AccountId "detector" id))
          none) ∧
    (∀ id1 id2 f1 f2 a1 a2 cs1 cs2,
      getAuditManagerEvidenceARN region (Except.ok c) ⟨some ⟨some id1, f1⟩, a1, cs1⟩ =
          getAuditManagerEvidenceARN region (Except.ok c) ⟨some ⟨some id2, f2⟩, a2, cs2⟩ →
        id1 = id2) ∧
    (∀ id1 id2 v1 v2,
      getEBSSnapshotARN region (Except.ok c) (some ⟨some id1, v1⟩) =
          getEBSSnapshotARN region (Except.ok c) (some ⟨some id2, v2⟩) →
        id1 = id2) ∧
    (∀ id1 id2 o1 o2,
      getGuardDutyDetectorARN region (Except.ok c) ⟨o1, id1⟩ =
          getGuardDutyDetectorARN region (Except.ok c) ⟨o2, id2⟩ →
        id1 = id2) ∧
    (∀ e id folderId a cs,
      getAuditManagerEvidenceARN region (Except.error e) ⟨some ⟨some id, folderId⟩, a, cs⟩ =
        Hydrated.ret none (some e)) ∧
    (∀ e item, getEBSSnapshotARN region (Except.error e) item = Hydrated.ret none (some e)) ∧
    (∀ e data, getGuardDutyDetectorARN region (Except.error e) data =
      Hydrated.ret none (some e)) := by
  have h1 : ∀ id folderId a cs,
      getAuditManagerEvidenceARN region (Except.ok c) ⟨some ⟨some id, folderId⟩, a, cs⟩ =
        Hydrated.ret (some (arnOf c.Partition "auditmanager" region c.AccountId "evidence" id))
          none := by
    intro id folderId a cs
    simp only [getAuditManagerEvidenceARN]
    rw [arn_eq_arnOf c.Partition region c.AccountId id ":auditmanager:" ":evidence/"
      "auditmanager" "evidence" (by decide) (by decide)]
  have h2 : ∀ id vol,
      getEBSSnapshotARN region (Except.ok c) (some ⟨some id, vol⟩) =
        Hydrated.ret (some (arnOf c.Partition "ec2" region c.AccountId "snapshot" id)) none := by
    intro id vol
    simp only [getEBSSnapshotARN]
    rw [arn_eq_arnOf c.Partition region c.AccountId id ":ec2:" ":snapshot/"
      "ec2" "snapshot" (by decide) (by decide)]
  have h3 : ∀ out id,
      getGuardDutyDetectorARN region (Except.ok c) ⟨out, id⟩ =
        Hydrated.ret (some (arnOf c.Partition "guardduty" region c.AccountId "detector" id))
          none := by
    intro out id
    simp only [getGuardDutyDetectorARN]
    rw [arn_eq_arnOf c.Partition region c.AccountId id ":guardduty:" ":detector/"
      "guardduty" "detector" (by decide) (by decide)]
  refine ⟨h1, h2, h3, ?_, ?_, ?_, ?_, ?_, ?_⟩
  · intro id1 id2 f1 f2 a1 a2 cs1 cs2 h
    rw [h1, h1] at h
    simp only [Hydrated.ret.injEq, Option.some.injEq, and_true] at h
    exact arnOf_injective _ _ _ _ _ _ _ h
  · intro id1 id2 v1 v2 h
    rw [h2, h2] at h
    simp only [Hydrated.ret.injEq, Option.some.injEq, and_true] at h
    exact arnOf_injective _ _ _ _ _ _ _ h
  · intro id1 id2 o1 o2 h
    rw [h3, h3] at h
    simp only [Hydrated.ret.injEq, Option.some.injEq, and_true] at h
    exact arnOf_injective _ _ _ _ _ _ _ h
  · intro e id folderId a cs
    rfl
  · intro e item
    rfl
  · intro e data
    rfl

/-- Witness of C14 for one evidence row in `us-east-1`. -/
theorem C14_arn_builders_witness :
    getAuditManagerEvidenceARN "us-east-1" (Except.ok ⟨"aws", "us-east-1", "123456789012"⟩)
        ⟨some ⟨some "ev-1", none⟩, some "assessment-1", some "control-set-1"⟩ =
      Hydrated.ret (some "arn:aws:auditmanager:us-east-1:123456789012:evidence/ev-1") none ∧
    ("ev-1" : String) = "ev-1" :=
  ⟨((C14_arn_builders "us-east-1" ⟨"aws", "us-east-1", "123456789012"⟩).1
      "ev-1" none (some "assessment-1") (some "control-set-1")).trans (by decide),
    (C14_arn_builders "us-east-1" ⟨"aws", "us-east-1", "123456789012"⟩).2.2.2.1
      "ev-1" "ev-1" none none none none none none rfl⟩

/-- C15: `getGuardDutyDetector` sends `GetDetector` the `DetectorID` of the
hydrate item when there is one and the `detector_id` key qualifier when there
is none, and nothing else; the row it returns on success carries that same id;
so hydrating a row streamed by `listGuardDutyDetectors` returns a row with the
same `DetectorID`. -/
theorem C15_detector_id_kept (env : GuardDutyEnv) :
    (∀ item, ∀ req ∈ (getGuardDutyDetector env (some item)).requests,
      req.DetectorId = some item.DetectorID) ∧
    (∀ req ∈ (getGuardDutyDetector env none).requests,
      req.DetectorId = some env.detector_id) ∧
    (env.GuardDutyService = none →
      (∀ item, (getGuardDutyDetector env (some item)).requests =
        [{ DetectorId := some item.DetectorID }]) ∧
      (getGuardDutyDetector env none).requests = [{ DetectorId := some env.detector_id }]) ∧
    (∀ item info err, (getGuardDutyDetector env (some item)).result =
        Hydrated.ret (some info) err → info.DetectorID = item.DetectorID) ∧
    (∀ info err, (getGuardDutyDetector env none).result = Hydrated.ret (some info) err →
      info.DetectorID = env.detector_id) ∧
    (∀ (lenv : GuardDutyEnv) (row : detectorInfo), row ∈ (listGuardDutyDetectors lenv).streamed →
      ∀ info err, (getGuardDutyDetector env (some row)).result = Hydrated.ret (some info) err →
        info.DetectorID = row.DetectorID) := by
  have hreq : ∀ hItem, ∀ req ∈ (getGuardDutyDetector env hItem).requests,
      req.DetectorId = some (match hItem with
        | some item => item.DetectorID
        | none => env.detector_id) := by
    intro hItem req hmem
    unfold getGuardDutyDetector at hmem
    cases hsvc : env.GuardDutyService with
    | some e => simp [hsvc] at hmem
    | none =>
      simp only [hsvc] at hmem
      split at hmem <;> simp at hmem <;> simp [hmem]
  have hres : ∀ hItem info err, (getGuardDutyDetector env hItem).result =
      Hydrated.ret (some info) err →
      info.DetectorID = (match hItem with
        | some item => item.DetectorID
        | none => env.detector_id) := by
    intro hItem info err h
    unfold getGuardDutyDetector at h
    cases hsvc : env.GuardDutyService with
    | some e => simp [hsvc] at h
    | none =>
      simp only [hsvc] at h
      split at h
      · simp at h
      · simp only [Hydrated.ret.injEq, Option.some.injEq] at h
        rw [← h.1]
  refine ⟨fun item => hreq (some item), hreq none, ?_, fun item => hres (some item),
    hres none, fun _ row _ => hres (some row)⟩
  intro hsvc
  constructor
  · intro item
    unfold getGuardDutyDetector
    simp only [hsvc]
    split <;> rfl
  · unfold getGuardDutyDetector
    simp only [hsvc]
    split <;> rfl

/-- Witness of C15: hydrating the first row listed in `sampleGuardDutyEnv`. -/
theorem C15_detector_id_kept_witness :
    (listGuardDutyDetectors sampleGuardDutyEnv).streamed =
      [⟨⟨none, none, none⟩, "detector-1"⟩, ⟨⟨none, none, none⟩, "detector-2"⟩] ∧
    (getGuardDutyDetector sampleGuardDutyEnv (some ⟨⟨none, none, none⟩, "detector-1"⟩)).requests =
      [{ DetectorId := some "detector-1" }] ∧
    (⟨⟨some "ENABLED", none, none⟩, "detector-1"⟩ : detectorInfo).DetectorID = "detector-1" :=
  ⟨by decide,
    ((C15_detector_id_kept sampleGuardDutyEnv).2.2.1 rfl).1 ⟨⟨none, none, none⟩, "detector-1"⟩,
    (C15_detector_id_kept sampleGuardDutyEnv).2.2.2.2.2 sampleGuardDutyEnv
      ⟨⟨none, none, none⟩, "detector-1"⟩ (by decide)
      ⟨⟨some "ENABLED", none, none⟩, "detector-1"⟩ none (by decide)⟩

end Aws
